import Mathlib

/-!
Verification of the PyTorch-to-Chakra execution-trace converter
(src/et_converter/pytorch2chakra_converter.py).

The Python source is shallowly embedded: Python dicts become association
lists (`List (Int × α)`) with insertion-order iteration and first-match
lookup (dict keys are unique in every dict the program builds), Python sets
become `Finset Int`, Python ints become `Int`, and objects mutated in place
become explicit state passing.  Protobuf messages (ChakraNode, ChakraAttr,
GlobalMetadata) become plain structures.  Methods of the external class
PyTorchNode (pytorch_node.py, which is not part of this repository
snapshot; only its callers are) are modelled from the spec where noted.

The file has two parts: all definitions first, then all theorems.
-/

set_option maxHeartbeats 1600000
set_option linter.unusedVariables false

namespace Chakra

/-! ### Dictionary helpers -/

/-- First-match lookup in an association list; models Python dict lookup. -/
def lookupD {α : Type} (m : List (Int × α)) (k : Int) : Option α :=
  match m with
  | [] => none
  | (k₀, v₀) :: rest => if k₀ = k then some v₀ else lookupD rest k

/-- The key list of an association list; models Python dict .keys(). -/
def keysD {α : Type} (m : List (Int × α)) : List Int :=
  m.map Prod.fst

/-- Python dict assignment d[k] = v: replaces the value in place when the
key is present, appends at the end otherwise (insertion order preserved). -/
def dictInsert {α : Type} (m : List (Int × α)) (k : Int) (v : α) : List (Int × α) :=
  match m with
  | [] => [(k, v)]
  | (k₀, v₀) :: rest =>
    if k₀ = k then (k₀, v) :: rest else (k₀, v₀) :: dictInsert rest k v

/-- Updates the value at a key when the key is present; leaves the
association list unchanged otherwise. -/
def dictModify {α : Type} (m : List (Int × α)) (k : Int) (f : α → α) : List (Int × α) :=
  match m with
  | [] => []
  | (k₀, v₀) :: rest =>
    if k₀ = k then (k₀, f v₀) :: rest else (k₀, v₀) :: dictModify rest k f

/-- Python substring test (the in operator on strings). -/
def pyIn (pat s : String) : Bool :=
  decide (pat.toList <:+: s.toList)

/-- Ascending sort of a key list; models Python sorted(). -/
def sortAscInt (l : List Int) : List Int :=
  List.insertionSort (· ≤ ·) l

/-- Descending sort of a key list; models Python sorted(-, reverse=True). -/
def sortDescInt (l : List Int) : List Int :=
  List.insertionSort (· ≥ ·) l

/-- Python max() over a nonempty list (the [] case is irrelevant: the source
raises there, and the theorems assume a nonempty input). -/
def maxList : List Int → Int
  | [] => 0
  | [x] => x
  | x :: y :: xs => max x (maxList (y :: xs))

/-! ### Data model: operator records and output nodes -/

/-- Enum PyTorchNodeType imported from pytorch_node.py. -/
inductive PyTorchNodeType where
  | CPU_OP
  | GPU_OP
  | LABEL
  deriving DecidableEq, Repr, Inhabited

/-- An operator record (class PyTorchNode of pytorch_node.py, whose source
file is outside this snapshot).  Fields are those the converter reads.
Child records and the GPU child are held by object reference in the source;
the embedding stores their ids.  The spec (section 3) says the duration may
be absent and is then treated as zero, so the embedding stores it as a
plain integer.  The kind is computed on demand from record fields in the
source; modelled from the spec as a stored field of the record. -/
structure PyTorchNode where
  id : Int
  name : String
  parent : Int
  children : List Int
  child_gpu : Option Int
  op_type : PyTorchNodeType
  ts : Int
  dur : Int
  inputs : String
  input_shapes : String
  input_types : String
  outputs : List String
  output_shapes : String
  output_types : String
  op_schema : String
  rf_id : Int
  fw_parent : Int
  seq_id : Int
  scope : Int
  tid : Int
  fw_tid : Int
  collective_comm_type : Int
  comm_size : Int
  deriving DecidableEq, Repr, Inhabited

/-- Modelled from the spec: PyTorchNode.get_op_type derives the record kind
{CPU_OP, GPU_OP, LABEL} from record fields (spec section 3); the embedding
reads the stored kind. -/
def PyTorchNode.get_op_type (p : PyTorchNode) : PyTorchNodeType :=
  p.op_type

/-- Modelled from the spec: PyTorchNode.is_gpu_op tests whether the record
is a GPU-side record. -/
def PyTorchNode.is_gpu_op (p : PyTorchNode) : Bool :=
  p.get_op_type == PyTorchNodeType.GPU_OP

/-- Chakra node-type constants imported from et_def_pb2. -/
inductive ChakraNodeType where
  | INVALID_NODE
  | COMP_NODE
  | COMM_COLL_NODE
  deriving DecidableEq, Repr, Inhabited

/-- A typed attribute value of an AttributeProto message. -/
inductive ChakraAttrVal where
  | i64 (v : Int)
  | i32 (v : Int)
  | u64 (v : Int)
  | str (v : String)
  | boolList (v : List Bool)
  deriving DecidableEq, Repr, Inhabited

/-- An AttributeProto message (ChakraAttr). -/
structure ChakraAttr where
  name : String
  val : ChakraAttrVal
  deriving DecidableEq, Repr, Inhabited

/-- A Chakra output node (protobuf message Node); the nested inputs/outputs
string triples are flattened into six string fields. -/
structure ChakraNode where
  id : Int
  name : String
  type : ChakraNodeType
  ctrl_deps : List Int
  data_deps : List Int
  duration_micros : Int
  inputs_values : String
  inputs_shapes : String
  inputs_types : String
  outputs_values : String
  outputs_shapes : String
  outputs_types : String
  attr : List ChakraAttr
  deriving DecidableEq, Repr, Inhabited

/-! ### Identity assigner (class UniqueIdAssigner, lines 26-78)

The Python dict original_to_assigned_ids with .get(x, []) access is
embedded as a total function defaulting to []; setdefault-then-append
becomes a pointwise functional update. -/

/-- State of class UniqueIdAssigner. -/
structure UniqueIdAssigner where
  next_id : Int
  original_to_assigned_ids : Int → List Int

/-- UniqueIdAssigner.__init__. -/
def UniqueIdAssigner.init : UniqueIdAssigner :=
  { next_id := 0, original_to_assigned_ids := fun _ => [] }

/-- UniqueIdAssigner.set_next_id. -/
def UniqueIdAssigner.set_next_id (a : UniqueIdAssigner) (n : Int) : UniqueIdAssigner :=
  { a with next_id := n }

/-- UniqueIdAssigner.assign_unique_id: returns the issued id and the updated
assigner state. -/
def UniqueIdAssigner.assign_unique_id (a : UniqueIdAssigner) (original_id : Int) :
    Int × UniqueIdAssigner :=
  let unique_id := a.next_id
  (unique_id,
   { next_id := a.next_id + 1,
     original_to_assigned_ids := fun x =>
       if x = original_id then a.original_to_assigned_ids x ++ [unique_id]
       else a.original_to_assigned_ids x })

/-- UniqueIdAssigner.get_assigned_ids. -/
def UniqueIdAssigner.get_assigned_ids (a : UniqueIdAssigner) (original_id : Int) : List Int :=
  a.original_to_assigned_ids original_id

/-- A sequence of assign_unique_id calls; returns the list of issued ids in
order together with the final assigner state. -/
def runAssign (a : UniqueIdAssigner) : List Int → List Int × UniqueIdAssigner
  | [] => ([], a)
  | x :: xs =>
    let r := a.assign_unique_id x
    let rest := runAssign r.2 xs
    (r.1 :: rest.1, rest.2)

/-- load_pytorch_execution_traces, lines 192-210: the assigner starts as a
fresh UniqueIdAssigner whose counter is set to one past the maximum
original node id observed in the input
(set_next_id(max(self.pytorch_nodes.keys()) + 1)). -/
def loadAssigner (ids : List Int) : UniqueIdAssigner :=
  UniqueIdAssigner.init.set_next_id (maxList ids + 1)

/-! ### Node classifier (get_chakra_node_type_from_pytorch_node, lines 483-503) -/

/-- Direct embedding of get_chakra_node_type_from_pytorch_node. -/
def get_chakra_node_type_from_pytorch_node (pytorch_node : PyTorchNode) : ChakraNodeType :=
  if pytorch_node.is_gpu_op &&
      (pyIn "ncclKernel" pytorch_node.name || pyIn "ncclDevKernel" pytorch_node.name) then
    ChakraNodeType.COMM_COLL_NODE
  else if pytorch_node.is_gpu_op then
    ChakraNodeType.COMP_NODE
  else if pyIn "c10d::" pytorch_node.name || pyIn "nccl:" pytorch_node.name then
    ChakraNodeType.COMM_COLL_NODE
  else if pytorch_node.op_schema != "" || !pytorch_node.outputs.isEmpty then
    ChakraNodeType.COMP_NODE
  else
    ChakraNodeType.INVALID_NODE

/-- The collective-kernel name markers for GPU records (spec section 4.3
rule 1; the concrete substrings are fixed by the source). -/
def hasCollectiveKernelMarker (name : String) : Bool :=
  pyIn "ncclKernel" name || pyIn "ncclDevKernel" name

/-- The collective-library call markers for CPU/LABEL records (spec section
4.3 rule 3; the concrete substrings are fixed by the source). -/
def hasCollectiveCallMarker (name : String) : Bool :=
  pyIn "c10d::" name || pyIn "nccl:" name

/-- Modelled from the spec (section 4.3): the classification rules written
as a first-match-wins cascade over the record kind, to be compared with the
source classifier. -/
def specNodeType (p : PyTorchNode) : ChakraNodeType :=
  match p.get_op_type with
  | PyTorchNodeType.GPU_OP =>
    if hasCollectiveKernelMarker p.name then ChakraNodeType.COMM_COLL_NODE
    else ChakraNodeType.COMP_NODE
  | _ =>
    if hasCollectiveCallMarker p.name then ChakraNodeType.COMM_COLL_NODE
    else if p.op_schema != "" || !p.outputs.isEmpty then ChakraNodeType.COMP_NODE
    else ChakraNodeType.INVALID_NODE

/-! ### Node translator (convert_to_chakra_node, lines 445-481) -/

/-- Direct embedding of convert_to_chakra_node.  chakra_nodes is the output
collection at translation time (read for the ctrl_deps membership test).
The source formats the carried-through input/output descriptors with str();
the record fields here already hold the formatted strings except outputs,
whose list structure the classifier also tests for emptiness.
duration_micros is dur when the record has a duration and 0 otherwise; with
absent durations embedded as 0 (spec section 3) this is the stored dur. -/
def convert_to_chakra_node (chakra_nodes : List (Int × ChakraNode))
    (pytorch_node : PyTorchNode) : ChakraNode :=
  { id := pytorch_node.id
    name := pytorch_node.name
    type := get_chakra_node_type_from_pytorch_node pytorch_node
    ctrl_deps :=
      if pytorch_node.parent ∈ keysD chakra_nodes then [pytorch_node.parent] else []
    data_deps := []
    duration_micros := pytorch_node.dur
    inputs_values := pytorch_node.inputs
    inputs_shapes := pytorch_node.input_shapes
    inputs_types := pytorch_node.input_types
    outputs_values := toString pytorch_node.outputs
    outputs_shapes := pytorch_node.output_shapes
    outputs_types := pytorch_node.output_types
    attr :=
      [⟨"rf_id", ChakraAttrVal.i64 pytorch_node.rf_id⟩,
       ⟨"fw_parent", ChakraAttrVal.i64 pytorch_node.fw_parent⟩,
       ⟨"seq_id", ChakraAttrVal.i64 pytorch_node.seq_id⟩,
       ⟨"scope", ChakraAttrVal.i64 pytorch_node.scope⟩,
       ⟨"tid", ChakraAttrVal.i64 pytorch_node.tid⟩,
       ⟨"fw_tid", ChakraAttrVal.i64 pytorch_node.fw_tid⟩,
       ⟨"op_schema", ChakraAttrVal.str pytorch_node.op_schema⟩,
       ⟨"is_cpu_op", ChakraAttrVal.i32 (if pytorch_node.is_gpu_op then 0 else 1)⟩,
       ⟨"ts", ChakraAttrVal.i64 pytorch_node.ts⟩] }

/-! ### Main conversion loop (convert, lines 158-178) -/

/-- The loop guard: the record is a CPU_OP or LABEL record. -/
def isCpuOrLabel (p : PyTorchNode) : Bool :=
  p.get_op_type == PyTorchNodeType.CPU_OP || p.get_op_type == PyTorchNodeType.LABEL

/-- The three extra attributes attached in the collective branch of the
conversion loop (lines 168-176): collective type, communication size, and
one involvement flag per configured dimension, all true. -/
def collExtraAttrs (g : PyTorchNode) (num_dims : Nat) : List ChakraAttr :=
  [⟨"comm_type", ChakraAttrVal.i64 g.collective_comm_type⟩,
   ⟨"comm_size", ChakraAttrVal.i64 g.comm_size⟩,
   ⟨"involved_dim", ChakraAttrVal.boolList (List.replicate num_dims true)⟩]

/-- One iteration of the conversion loop of convert (lines 158-178) for one
record.  The GPU child is held by reference in the source and converted
directly; after the split phase the same record value is stored in the node
map under its id, so the embedding fetches it there. -/
def convertStep (num_dims : Nat) (pn : List (Int × PyTorchNode))
    (acc : List (Int × ChakraNode)) (p : PyTorchNode) : List (Int × ChakraNode) :=
  if isCpuOrLabel p then
    let chakra_node := convert_to_chakra_node acc p
    let acc1 := dictInsert acc chakra_node.id chakra_node
    match p.child_gpu with
    | none => acc1
    | some gid =>
      match lookupD pn gid with
      | none => acc1
      | some g =>
        let chakra_gpu_node := convert_to_chakra_node acc1 g
        let chakra_gpu_node :=
          if chakra_node.type == ChakraNodeType.COMM_COLL_NODE then
            { chakra_gpu_node with attr := chakra_gpu_node.attr ++ collExtraAttrs g num_dims }
          else chakra_gpu_node
        dictInsert acc1 chakra_gpu_node.id chakra_gpu_node
  else acc

/-- The conversion loop of convert (lines 158-178) over the whole record
map in insertion order, starting from the empty output collection. -/
def convertNodes (num_dims : Nat) (pn : List (Int × PyTorchNode)) : List (Int × ChakraNode) :=
  pn.foldl (fun acc e => convertStep num_dims pn acc e.2) []

/-- Tests whether a node carries one of the collective-only attributes. -/
def hasCommTypeAttr (n : ChakraNode) : Bool :=
  n.attr.any (fun a => a.name == "comm_type")

/-! ### Overlap splitter (_split_cpu_node, lines 349-422) -/

/-- The original_cpu_info fragment interpolated into both error messages. -/
def originalCpuInfo (cpu_node : PyTorchNode) : String :=
  "Original CPU Node ID " ++ toString cpu_node.id ++ " (" ++ cpu_node.name ++
    "), Duration: " ++ toString cpu_node.dur ++ "."

/-- The error message raised for an invalid first split segment. -/
def firstSplitErrMsg (cpu_node : PyTorchNode) (gpu_ts first_ts first_dur : Int) : String :=
  "Invalid timestamps for the first split CPU node derived from " ++
    originalCpuInfo cpu_node ++ "\n" ++
    "\tFirst Split CPU Node Timestamp: " ++ toString first_ts ++ ", \n" ++
    "\tGPU Node Timestamp: " ++ toString gpu_ts ++ ", \n" ++
    "\tFirst Split CPU Node Duration: " ++ toString first_dur ++ "."

/-- The error message raised for an invalid second split segment. -/
def secondSplitErrMsg (cpu_node : PyTorchNode) (first_ts second_ts second_dur : Int) : String :=
  "Invalid timestamps for the second split CPU node derived from " ++
    originalCpuInfo cpu_node ++ "\n" ++
    "\tFirst Split Timestamp: " ++ toString first_ts ++ ", \n" ++
    "\tSecond Split Timestamp: " ++ toString second_ts ++ ", \n" ++
    "\tSecond Split Duration: " ++ toString second_dur ++ "."

/-- Message inclusion: piece occurs contiguously inside msg. -/
def strIncludes (msg piece : String) : Prop :=
  ∃ a b, msg = a ++ piece ++ b

/-- Direct embedding of _split_cpu_node.  Returns the first segment, the
second segment, the re-identified GPU record and the final assigner state,
or the raised ValueError message.  Notes kept from the source: the first
segment is a copy of the CPU record, so its timestamp is the CPU record
timestamp; set_child_gpu stores an object reference whose id field the
later reassignment updates, so the embedding records the reassigned GPU
id; the second segment is a copy taken after the children keep their ids,
and add_child then appends the original children to the copied list again;
the parent-side child-list bookkeeping (_update_parent_node_children)
mutates the surrounding node maps, not the returned records, and the outer
loop holding those maps is not embedded. -/
def splitCpuNode (assigner : UniqueIdAssigner) (cpu_node gpu_node : PyTorchNode) :
    Except String (PyTorchNode × PyTorchNode × PyTorchNode × UniqueIdAssigner) :=
  let r1 := assigner.assign_unique_id cpu_node.id
  let cpu_node_first : PyTorchNode :=
    { cpu_node with
        id := r1.1
        ts := cpu_node.ts
        dur := gpu_node.ts - cpu_node.ts }
  if cpu_node_first.ts ≥ gpu_node.ts ∨ cpu_node_first.dur ≤ 0 then
    Except.error (firstSplitErrMsg cpu_node gpu_node.ts cpu_node_first.ts cpu_node_first.dur)
  else
    let r2 := r1.2.assign_unique_id gpu_node.id
    let gpu_node' : PyTorchNode := { gpu_node with id := r2.1, parent := cpu_node_first.id }
    let r3 := r2.2.assign_unique_id cpu_node.id
    let cpu_node_second : PyTorchNode :=
      { cpu_node with
          id := r3.1
          ts := gpu_node.ts
          dur := cpu_node.dur - (gpu_node.ts - cpu_node.ts)
          child_gpu := none
          parent := cpu_node_first.id
          children := cpu_node.children ++ cpu_node.children }
    if cpu_node_second.ts ≤ cpu_node_first.ts ∨ cpu_node_second.dur ≤ 0 then
      Except.error
        (secondSplitErrMsg cpu_node cpu_node_first.ts cpu_node_second.ts cpu_node_second.dur)
    else
      let cpu_node_first :=
        { cpu_node_first with
            children := cpu_node_first.children ++ [cpu_node_second.id, gpu_node'.id]
            child_gpu := some gpu_node'.id }
      Except.ok (cpu_node_first, cpu_node_second, gpu_node', r3.2)

/-! ### Dependency converter (convert_ctrl_dep_to_data_dep, lines 526-607)

The Python stack holds node object references taken from the chakra node
map; a reference is pushed only after a successful map lookup and the
referent is not mutated between push and first processing (dependency
appends happen only to the node being processed, which the visited set
lets through once), so the embedding keeps ids on the stack and reads the
map when popping.  The two cursor variables hold references of which only
the id field is ever read, so they are embedded as optional ids.  The
traversal also returns the list of processed (id, kind) pairs in visit
order: this trace is instrumentation used by the theorems and does not
influence the computation. -/

/-- Appends one dependency id unless it is already present (the duplicate
guard of lines 582 and 592). -/
def appendDep (d : Int) (n : ChakraNode) : ChakraNode :=
  if d ∈ n.data_deps then n else { n with data_deps := n.data_deps ++ [d] }

/-- Records a data dependency of node id on the cursor, when the cursor is
set and the node is in the collection. -/
def addDataDep (m : List (Int × ChakraNode)) (id : Int) (dep : Option Int) :
    List (Int × ChakraNode) :=
  match dep with
  | none => m
  | some d => dictModify m id (appendDep d)

/-- The while loop of convert_ctrl_dep_to_data_dep (lines 567-607). -/
def runConvertLoop (pn : List (Int × PyTorchNode)) :
    Nat → List Int → Finset Int → Option Int → Option Int → List (Int × ChakraNode) →
    List (Int × ChakraNode) × List (Int × PyTorchNodeType)
  | 0, _, _, _, _, m => (m, [])
  | _ + 1, [], _, _, _, m => (m, [])
  | fuel + 1, current :: stack, visited, last_cpu, last_any, m =>
    if current ∈ visited then
      runConvertLoop pn fuel stack visited last_cpu last_any m
    else
      let visited' := insert current visited
      match lookupD pn current with
      | none => runConvertLoop pn fuel stack visited' last_cpu last_any m
      | some p =>
        let k := p.get_op_type
        let m' := if k = PyTorchNodeType.GPU_OP then addDataDep m current last_any
                  else addDataDep m current last_cpu
        let last_cpu' := if k = PyTorchNodeType.GPU_OP then last_cpu else some current
        let last_any' := some current
        let stack' := (sortDescInt p.children).foldl
          (fun s c => if (lookupD m' c).isSome = true ∧ c ∉ visited' then c :: s else s) stack
        let r := runConvertLoop pn fuel stack' visited' last_cpu' last_any' m'
        (r.1, (current, k) :: r.2)

/-- Entry point of convert_ctrl_dep_to_data_dep for one root node: empty
visited set, the root on the stack, both cursors unset. -/
def convert_ctrl_dep_to_data_dep (pn : List (Int × PyTorchNode))
    (m : List (Int × ChakraNode)) (root : Int) (fuel : Nat) : List (Int × ChakraNode) :=
  (runConvertLoop pn fuel [root] ∅ none none m).1

/-- The dependency update applied to a visited node, as a function of the
cursor in effect when the node is processed. -/
def applyDepOpt (dep : Option Int) (n : ChakraNode) : ChakraNode :=
  match dep with
  | none => n
  | some d => appendDep d n

/-- Replays a visit trace over the node collection: each visited node
receives the dependency dictated by the cursors, and the cursors evolve as
in the source (a GPU visit leaves the CPU cursor unchanged). -/
def applyTrace (tr : List (Int × PyTorchNodeType)) (last_cpu last_any : Option Int)
    (m : List (Int × ChakraNode)) : List (Int × ChakraNode) :=
  match tr with
  | [] => m
  | (i, k) :: rest =>
    if k = PyTorchNodeType.GPU_OP then
      applyTrace rest last_cpu (some i) (addDataDep m i last_any)
    else
      applyTrace rest (some i) (some i) (addDataDep m i last_cpu)

/-- The node most recently visited before position k of the trace, seeded
with the cursor value at the start of the trace. -/
def prevAnyFrom (la : Option Int) (tr : List (Int × PyTorchNodeType)) (k : Nat) : Option Int :=
  match k with
  | 0 => la
  | Nat.succ j => (tr.get? j).map Prod.fst

/-- The nearest CPU/LABEL node visited before position k of the trace,
seeded with the cursor value at the start of the trace. -/
def prevCpuFrom (lc : Option Int) (tr : List (Int × PyTorchNodeType)) (k : Nat) : Option Int :=
  match ((tr.take k).reverse.find? fun p => p.2 != PyTorchNodeType.GPU_OP) with
  | some p => some p.1
  | none => lc

/-! ### Graph sanitizer (remove_dangling_nodes, lines 609-628) -/

/-- The removal condition of lines 620: the node has an empty dependency
list and its id is in no node's data_deps (the referencing set is computed
over the pre-removal collection). -/
def isDangling (chakra_nodes : List (Int × ChakraNode)) (e : Int × ChakraNode) : Bool :=
  !(chakra_nodes.any fun f => e.1 ∈ f.2.data_deps) && e.2.data_deps.isEmpty

/-- Direct embedding of remove_dangling_nodes: the source precomputes the
set of referenced ids, then deletes dangling entries while iterating over a
snapshot, which equals filtering against the pre-removal collection.  (The
matching deletions from the record map do not affect the output nodes and
are not modelled.) -/
def remove_dangling_nodes (chakra_nodes : List (Int × ChakraNode)) : List (Int × ChakraNode) :=
  chakra_nodes.filter (fun e => !isDangling chakra_nodes e)

/-! ### Cycle detection (identify_cyclic_dependencies, lines 630-680)

The nested Python function dfs is embedded with explicit state and a fuel
parameter (the source recursion has no structural measure); none means the
fuel ran out, and the theorems show some fuel always suffices.  The result
carries the reported path on detection together with the accumulated
visited set.  The source indexes chakra_nodes[node_id] directly, which can
only be reached with node_id a key (start ids are keys and, under the
reference-closure the program guarantees, dependency ids are keys); the
embedding reads an empty child list for a missing key. -/

/-- The data_deps list of a node id, empty for a missing id. -/
def depsOf (m : List (Int × ChakraNode)) (i : Int) : List Int :=
  match lookupD m i with
  | some n => n.data_deps
  | none => []

/-- The dependency edge relation of the output collection: node i names j
in its data_deps. -/
def dataDepEdge (m : List (Int × ChakraNode)) (i j : Int) : Prop :=
  ∃ n, lookupD m i = some n ∧ j ∈ n.data_deps

/-- The for loop over data_deps children inside dfs, threading the visited
set and propagating a detected cycle; the recursive dfs call is passed in
as next. -/
def dfsChildren (next : Int → List Int → Finset Int → Finset Int →
    Option (Option (List Int) × Finset Int)) :
    List Int → List Int → Finset Int → Finset Int → Option (Option (List Int) × Finset Int)
  | [], _, visited, _ => some (none, visited)
  | c :: cs, path, visited, stack =>
    match next c path visited stack with
    | none => none
    | some (some cyc, v) => some (some cyc, v)
    | some (none, v) => dfsChildren next cs path v stack

/-- The nested function dfs of identify_cyclic_dependencies: on meeting a
node already on the stack it reports path + [node_id]; an already visited
node yields False; otherwise the node is marked visited and on-stack and
its data_deps children are searched.  The caller keeps its own stack and
path, which models the stack.remove / path.pop on exit. -/
def dfsDetect (m : List (Int × ChakraNode)) :
    Nat → Int → List Int → Finset Int → Finset Int → Option (Option (List Int) × Finset Int)
  | 0, _, _, _, _ => none
  | fuel + 1, node_id, path, visited, stack =>
    if node_id ∈ stack then some (some (path ++ [node_id]), visited)
    else if node_id ∈ visited then some (none, visited)
    else
      dfsChildren (dfsDetect m fuel) (depsOf m node_id) (path ++ [node_id])
        (insert node_id visited) (insert node_id stack)

/-- The top-level for loop of identify_cyclic_dependencies: dfs from every
key with a persistent visited set; the stack set is empty again whenever a
call returns False. -/
def identifyCyclesLoop (m : List (Int × ChakraNode)) (fuel : Nat) :
    List Int → Finset Int → Option (Option (List Int))
  | [], _ => some none
  | i :: rest, visited =>
    match dfsDetect m fuel i [] visited ∅ with
    | none => none
    | some (some cyc, _) => some (some cyc)
    | some (none, v) => identifyCyclesLoop m fuel rest v

/-- The cyclic-dependency report: the names of the path nodes joined in
traversal order (the string logged at detection, line 657). -/
def cycleMsg (m : List (Int × ChakraNode)) (cyc : List Int) : String :=
  String.intercalate " -> " (cyc.map fun n => ((lookupD m n).getD default).name)

/-- Direct embedding of identify_cyclic_dependencies: ok () when no cycle
is found, otherwise the reported message and path of the raised fatal
error. -/
def identify_cyclic_dependencies (m : List (Int × ChakraNode)) (fuel : Nat) :
    Option (Except (String × List Int) Unit) :=
  match identifyCyclesLoop m fuel (keysD m) ∅ with
  | none => none
  | some none => some (Except.ok ())
  | some (some cyc) => some (Except.error (cycleMsg m cyc, cyc))

/-! ### Trace writer (write_chakra_et, lines 682-730) -/

/-- One record on the wire: the global metadata message or one node. -/
inductive TraceMessage where
  | metadata (schema : String) (pid : Int) (time : String) (start_ts finish_ts : Int)
  | node (n : ChakraNode)
  deriving DecidableEq, Repr

/-- The duplicate-checked write loop of _encode_and_write_nodes over the
sorted key list: returns the nodes encoded before any error, and the
message of the raised ValueError if a duplicate id is met. -/
def writeNodesLoop (chakra_nodes : List (Int × ChakraNode)) (seen : Finset Int) :
    List Int → List ChakraNode × Option String
  | [] => ([], none)
  | nid :: rest =>
    if nid ∈ seen then
      ([], some ("Duplicate NID " ++ toString nid ++ " detected in Chakra nodes."))
    else
      let chakra_node := (lookupD chakra_nodes nid).getD default
      let r := writeNodesLoop chakra_nodes (insert nid seen) rest
      (chakra_node :: r.1, r.2)

/-- Direct embedding of _encode_and_write_nodes (lines 713-730): iterate
the keys in ascending sorted order with a duplicate check. -/
def encode_and_write_nodes (chakra_nodes : List (Int × ChakraNode)) :
    List ChakraNode × Option String :=
  writeNodesLoop chakra_nodes ∅ (sortAscInt (keysD chakra_nodes))

/-- Direct embedding of write_chakra_et (lines 682-692): one global
metadata record, then the encoded nodes; the second component is the fatal
duplicate-id error, if any. -/
def write_chakra_et (schema : String) (pid : Int) (time : String)
    (start_ts finish_ts : Int) (chakra_nodes : List (Int × ChakraNode)) :
    List TraceMessage × Option String :=
  let r := encode_and_write_nodes chakra_nodes
  (TraceMessage.metadata schema pid time start_ts finish_ts :: r.1.map TraceMessage.node, r.2)

/-- Invariant of the cycle search: every visited node that is not on the
stack is settled — everything reachable from it is visited, off the stack,
and on no cycle. -/
def dfsPre (m : List (Int × ChakraNode)) (visited stack : Finset Int) : Prop :=
  ∀ x ∈ visited, x ∉ stack → ∀ y, Relation.ReflTransGen (dataDepEdge m) x y →
    y ∈ visited ∧ y ∉ stack ∧ ¬Relation.TransGen (dataDepEdge m) y y

/-- A well-formed cycle report: consecutive reported nodes are data_deps
edges in traversal order, and the final node closes a cycle by repeating
an earlier one. -/
def cycOk (m : List (Int × ChakraNode)) (cyc : List Int) : Prop :=
  List.Chain' (dataDepEdge m) cyc ∧ ∃ c, cyc.getLast? = some c ∧ c ∈ cyc.dropLast

/-- The only way the conversion loop can produce a node carrying the
collective-only attributes: the entry is keyed by the id of the GPU child
of a CPU/LABEL record whose own output node is classified
COMM_COLL_NODE. -/
def commAttrOrigin (pn : List (Int × PyTorchNode)) (e : Int × ChakraNode) : Prop :=
  ∃ f ∈ pn, isCpuOrLabel f.2 = true ∧
    get_chakra_node_type_from_pytorch_node f.2 = ChakraNodeType.COMM_COLL_NODE ∧
    ∃ gid g, f.2.child_gpu = some gid ∧ lookupD pn gid = some g ∧ e.1 = g.id

/-- A minimal output node used for concrete instances in the theorems. -/
def mkNode (i : Int) (deps : List Int) : ChakraNode :=
  { id := i, name := "", type := ChakraNodeType.INVALID_NODE, ctrl_deps := [],
    data_deps := deps, duration_micros := 0, inputs_values := "", inputs_shapes := "",
    inputs_types := "", outputs_values := "", outputs_shapes := "", outputs_types := "",
    attr := [] }

/-- A minimal named output node used for concrete instances in the
theorems. -/
def mkNamedNode (i : Int) (nm : String) (deps : List Int) : ChakraNode :=
  { mkNode i deps with name := nm }

/-- A minimal operator record used for concrete instances in the
theorems. -/
def mkRecord (i : Int) (nm : String) (k : PyTorchNodeType) : PyTorchNode :=
  { id := i, name := nm, parent := 0, children := [], child_gpu := none, op_type := k,
    ts := 0, dur := 0, inputs := "", input_shapes := "", input_types := "", outputs := [],
    output_shapes := "", output_types := "", op_schema := "", rf_id := 0, fw_parent := 0,
    seq_id := 0, scope := 0, tid := 0, fw_tid := 0, collective_comm_type := 0, comm_size := 0 }

/-! ## Theorems -/

/-! ### Dictionary lemmas -/

@[simp] theorem lookupD_nil {α : Type} (k : Int) : lookupD ([] : List (Int × α)) k = none := rfl

@[simp] theorem lookupD_cons {α : Type} (k₀ : Int) (v₀ : α) (rest : List (Int × α)) (k : Int) :
    lookupD ((k₀, v₀) :: rest) k = if k₀ = k then some v₀ else lookupD rest k := rfl

@[simp] theorem keysD_nil {α : Type} : keysD ([] : List (Int × α)) = [] := rfl

@[simp] theorem keysD_cons {α : Type} (p : Int × α) (rest : List (Int × α)) :
    keysD (p :: rest) = p.1 :: keysD rest := rfl

theorem lookupD_eq_none_iff {α : Type} (m : List (Int × α)) (k : Int) :
    lookupD m k = none ↔ k ∉ keysD m := by
  induction m with
  | nil => simp
  | cons p rest ih =>
    obtain ⟨k₀, v₀⟩ := p
    by_cases h : k₀ = k
    · simp [lookupD, h, ih, eq_comm]
    · simp only [lookupD, h, if_false, keysD_cons, List.mem_cons, ih]
      constructor
      · intro hk hor
        rcases hor with h1 | h2
        · exact h h1.symm
        · exact hk h2
      · intro hk h2
        exact hk (Or.inr h2)

theorem lookupD_isSome_iff {α : Type} (m : List (Int × α)) (k : Int) :
    (lookupD m k).isSome = true ↔ k ∈ keysD m := by
  rw [Option.isSome_iff_ne_none, ne_eq, lookupD_eq_none_iff, not_not]

theorem lookupD_mem {α : Type} (m : List (Int × α)) (k : Int) (v : α)
    (h : lookupD m k = some v) : (k, v) ∈ m := by
  induction m with
  | nil => simp [lookupD] at h
  | cons p rest ih =>
    obtain ⟨k₀, v₀⟩ := p
    by_cases hk : k₀ = k
    · subst hk
      rw [lookupD_cons, if_pos rfl, Option.some_inj] at h
      subst h
      exact List.mem_cons_self _ _
    · rw [lookupD_cons, if_neg hk] at h
      exact List.mem_cons_of_mem _ (ih h)

theorem dictModify_lookup_other {α : Type} (m : List (Int × α)) (k : Int) (f : α → α)
    (k' : Int) (hne : k ≠ k') : lookupD (dictModify m k f) k' = lookupD m k' := by
  induction m with
  | nil => rfl
  | cons p rest ih =>
    obtain ⟨k₀, v₀⟩ := p
    by_cases h : k₀ = k
    · subst h
      simp [dictModify, lookupD, hne, ih]
    · simp [dictModify, h, lookupD, ih]

theorem dictModify_lookup_self {α : Type} (m : List (Int × α)) (k : Int) (f : α → α) :
    lookupD (dictModify m k f) k = (lookupD m k).map f := by
  induction m with
  | nil => rfl
  | cons p rest ih =>
    obtain ⟨k₀, v₀⟩ := p
    by_cases h : k₀ = k
    · subst h
      simp [dictModify, lookupD]
    · simp [dictModify, h, lookupD, ih]

theorem keysD_dictModify {α : Type} (m : List (Int × α)) (k : Int) (f : α → α) :
    keysD (dictModify m k f) = keysD m := by
  induction m with
  | nil => rfl
  | cons p rest ih =>
    obtain ⟨k₀, v₀⟩ := p
    by_cases h : k₀ = k <;> simp [dictModify, h, ih]

theorem mem_dictInsert {α : Type} (m : List (Int × α)) (k : Int) (v : α) (e : Int × α) :
    e ∈ dictInsert m k v → e ∈ m ∨ e = (k, v) := by
  induction m with
  | nil =>
    intro h
    simpa [dictInsert] using h
  | cons p rest ih =>
    obtain ⟨k₀, v₀⟩ := p
    intro h
    by_cases hk : k₀ = k
    · subst hk
      simp only [dictInsert, if_true, eq_self_iff_true, List.mem_cons, if_pos] at h
      rcases h with h | h
      · exact Or.inr (by simp [h])
      · exact Or.inl (List.mem_cons_of_mem _ h)
    · simp only [dictInsert, if_neg hk, List.mem_cons] at h
      rcases h with h | h
      · exact Or.inl (by simp [h])
      · rcases ih h with h1 | h1
        · exact Or.inl (List.mem_cons_of_mem _ h1)
        · exact Or.inr h1

theorem mem_keysD_dictInsert_self {α : Type} (m : List (Int × α)) (k : Int) (v : α) :
    k ∈ keysD (dictInsert m k v) := by
  induction m with
  | nil => simp [dictInsert]
  | cons p rest ih =>
    obtain ⟨k₀, v₀⟩ := p
    by_cases hk : k₀ = k
    · subst hk
      simp [dictInsert]
    · simp [dictInsert, hk, ih]

theorem mem_keysD_dictInsert_of_mem {α : Type} (m : List (Int × α)) (k : Int) (v : α)
    (x : Int) (hx : x ∈ keysD m) : x ∈ keysD (dictInsert m k v) := by
  induction m with
  | nil => simp at hx
  | cons p rest ih =>
    obtain ⟨k₀, v₀⟩ := p
    by_cases hk : k₀ = k
    · subst hk
      simpa [dictInsert] using hx
    · simp only [keysD_cons, List.mem_cons] at hx
      rcases hx with hx | hx
      · simp [dictInsert, hk, hx]
      · simp [dictInsert, hk, ih hx]

/-! ### Identity assigner: claim C4 -/

theorem runAssign_next_id (a : UniqueIdAssigner) (xs : List Int) :
    ((runAssign a xs).2).next_id = a.next_id + xs.length := by
  induction xs generalizing a with
  | nil => simp [runAssign]
  | cons x xs ih =>
    simp only [runAssign, ih, UniqueIdAssigner.assign_unique_id, List.length_cons]
    push_cast
    ring

theorem runAssign_length (a : UniqueIdAssigner) (xs : List Int) :
    (runAssign a xs).1.length = xs.length := by
  induction xs generalizing a with
  | nil => rfl
  | cons x xs ih => simp [runAssign, ih]

theorem runAssign_get (a : UniqueIdAssigner) (xs : List Int) (i : Nat)
    (h : i < (runAssign a xs).1.length) :
    (runAssign a xs).1.get ⟨i, h⟩ = a.next_id + i := by
  induction xs generalizing a i with
  | nil => simp [runAssign] at h
  | cons x xs ih =>
    match i with
    | 0 => simp [runAssign, UniqueIdAssigner.assign_unique_id]
    | i + 1 =>
      have h' : i < (runAssign (a.assign_unique_id x).2 xs).1.length := by
        simpa [runAssign] using h
      have := ih (a.assign_unique_id x).2 i h'
      simp only [runAssign, List.get_cons_succ]
      rw [this]
      simp only [UniqueIdAssigner.assign_unique_id]
      push_cast
      ring

theorem runAssign_pairwise (a : UniqueIdAssigner) (xs : List Int) :
    List.Pairwise (· < ·) (runAssign a xs).1 := by
  rw [List.pairwise_iff_get]
  intro i j hij
  rw [runAssign_get a xs i.1 i.2, runAssign_get a xs j.1 j.2]
  have : (i.1 : Int) < (j.1 : Int) := by exact_mod_cast hij
  omega

theorem runAssign_history (a : UniqueIdAssigner) (xs : List Int) (y : Int) :
    ((runAssign a xs).2).get_assigned_ids y =
      a.get_assigned_ids y ++
        ((xs.zip (runAssign a xs).1).filterMap fun p => if p.1 = y then some p.2 else none) := by
  induction xs generalizing a with
  | nil => simp [runAssign, UniqueIdAssigner.get_assigned_ids]
  | cons x xs ih =>
    simp only [runAssign, List.zip_cons_cons, List.filterMap_cons]
    rw [ih]
    have hget : (a.assign_unique_id x).2.get_assigned_ids y =
        a.get_assigned_ids y ++ (if x = y then [a.next_id] else []) := by
      simp only [UniqueIdAssigner.assign_unique_id, UniqueIdAssigner.get_assigned_ids]
      by_cases h : x = y
      · subst h
        simp
      · simp [Ne.symm h, h]
    rw [hget]
    by_cases h : x = y <;> simp [h, UniqueIdAssigner.assign_unique_id, List.append_assoc]

/-- C4: for every sequence of assign_unique_id calls on one identity
assigner, each returned id is strictly greater than every previously
returned id (regardless of the original ids passed); get_assigned_ids x
returns exactly the ids assigned for x, in assignment order, and the empty
list (never failing) for an x never assigned; the counter starts at one
past the maximum original id observed in the input. -/
theorem C4_assigner_monotone_history (ids : List Int) (hids : ids ≠ []) (calls : List Int) :
    (loadAssigner ids).next_id = maxList ids + 1 ∧
    List.Pairwise (· < ·) (runAssign (loadAssigner ids) calls).1 ∧
    (∀ x : Int, ((runAssign (loadAssigner ids) calls).2).get_assigned_ids x =
      ((calls.zip (runAssign (loadAssigner ids) calls).1).filterMap
        fun p => if p.1 = x then some p.2 else none)) ∧
    (∀ x : Int, x ∉ calls →
      ((runAssign (loadAssigner ids) calls).2).get_assigned_ids x = []) := by
  refine ⟨rfl, runAssign_pairwise _ _, ?_, ?_⟩
  · intro x
    rw [runAssign_history]
    simp [loadAssigner, UniqueIdAssigner.init, UniqueIdAssigner.set_next_id,
      UniqueIdAssigner.get_assigned_ids]
  · intro x hx
    rw [runAssign_history]
    simp only [loadAssigner, UniqueIdAssigner.init, UniqueIdAssigner.set_next_id,
      UniqueIdAssigner.get_assigned_ids, List.nil_append]
    rw [List.filterMap_eq_nil_iff]
    intro p hp
    have h1 : p.1 ∈ calls := List.of_mem_zip hp |>.1
    have : p.1 ≠ x := fun h => hx (h ▸ h1)
    simp [this]

/-- Witness for C4 at a concrete input: original ids {3}, three assign
calls for original ids 7, 7, 2; the issued ids are 4, 5, 6 and the history
for 7 is [4, 5]. -/
theorem C4_witness :
    ([3] : List Int) ≠ [] ∧
    ((runAssign (loadAssigner [3]) [7, 7, 2]).2).get_assigned_ids 7 = [4, 5] := by
  refine ⟨by decide, ?_⟩
  rw [(C4_assigner_monotone_history [3] (by decide) [7, 7, 2]).2.2.1 7]
  decide

/-! ### Conversion-loop step lemmas -/

theorem convertStep_not_cpu (d : Nat) (pn : List (Int × PyTorchNode))
    (acc : List (Int × ChakraNode)) (p : PyTorchNode) (hc : isCpuOrLabel p = false) :
    convertStep d pn acc p = acc := by
  simp [convertStep, hc]

theorem convertStep_no_gpu (d : Nat) (pn : List (Int × PyTorchNode))
    (acc : List (Int × ChakraNode)) (p : PyTorchNode) (hc : isCpuOrLabel p = true)
    (hg : p.child_gpu = none) :
    convertStep d pn acc p =
      dictInsert acc (convert_to_chakra_node acc p).id (convert_to_chakra_node acc p) := by
  simp [convertStep, hc, hg]

theorem convertStep_gpu_miss (d : Nat) (pn : List (Int × PyTorchNode))
    (acc : List (Int × ChakraNode)) (p : PyTorchNode) (gid : Int)
    (hc : isCpuOrLabel p = true) (hg : p.child_gpu = some gid)
    (hl : lookupD pn gid = none) :
    convertStep d pn acc p =
      dictInsert acc (convert_to_chakra_node acc p).id (convert_to_chakra_node acc p) := by
  simp [convertStep, hc, hg, hl]

theorem convertStep_gpu (d : Nat) (pn : List (Int × PyTorchNode))
    (acc : List (Int × ChakraNode)) (p : PyTorchNode) (gid : Int) (g : PyTorchNode)
    (hc : isCpuOrLabel p = true) (hg : p.child_gpu = some gid)
    (hl : lookupD pn gid = some g) :
    convertStep d pn acc p =
      dictInsert (dictInsert acc (convert_to_chakra_node acc p).id (convert_to_chakra_node acc p))
        (convert_to_chakra_node
          (dictInsert acc (convert_to_chakra_node acc p).id (convert_to_chakra_node acc p)) g).id
        (if (convert_to_chakra_node acc p).type == ChakraNodeType.COMM_COLL_NODE then
          { convert_to_chakra_node
              (dictInsert acc (convert_to_chakra_node acc p).id (convert_to_chakra_node acc p)) g
            with attr :=
              (convert_to_chakra_node
                (dictInsert acc (convert_to_chakra_node acc p).id (convert_to_chakra_node acc p))
                  g).attr ++ collExtraAttrs g d }
        else
          convert_to_chakra_node
            (dictInsert acc (convert_to_chakra_node acc p).id (convert_to_chakra_node acc p)) g) := by
  by_cases ht : (convert_to_chakra_node acc p).type == ChakraNodeType.COMM_COLL_NODE <;>
    simp [convertStep, hc, hg, hl, ht]

theorem convert_to_chakra_node_id (m : List (Int × ChakraNode)) (p : PyTorchNode) :
    (convert_to_chakra_node m p).id = p.id := rfl

theorem convertStep_keys_mono (d : Nat) (pn : List (Int × PyTorchNode))
    (acc : List (Int × ChakraNode)) (p : PyTorchNode) (x : Int) (hx : x ∈ keysD acc) :
    x ∈ keysD (convertStep d pn acc p) := by
  by_cases hc : isCpuOrLabel p
  · cases hg : p.child_gpu with
    | none =>
      rw [convertStep_no_gpu d pn acc p hc hg]
      exact mem_keysD_dictInsert_of_mem _ _ _ _ hx
    | some gid =>
      cases hl : lookupD pn gid with
      | none =>
        rw [convertStep_gpu_miss d pn acc p gid hc hg hl]
        exact mem_keysD_dictInsert_of_mem _ _ _ _ hx
      | some g =>
        rw [convertStep_gpu d pn acc p gid g hc hg hl]
        exact mem_keysD_dictInsert_of_mem _ _ _ _ (mem_keysD_dictInsert_of_mem _ _ _ _ hx)
  · rw [convertStep_not_cpu d pn acc p (by simpa using hc)]
    exact hx

theorem convertStep_self_key (d : Nat) (pn : List (Int × PyTorchNode))
    (acc : List (Int × ChakraNode)) (p : PyTorchNode) (hc : isCpuOrLabel p = true) :
    p.id ∈ keysD (convertStep d pn acc p) := by
  have hself : p.id ∈ keysD (dictInsert acc (convert_to_chakra_node acc p).id
      (convert_to_chakra_node acc p)) := by
    rw [convert_to_chakra_node_id]
    exact mem_keysD_dictInsert_self _ _ _
  cases hg : p.child_gpu with
  | none =>
    rw [convertStep_no_gpu d pn acc p hc hg]
    exact hself
  | some gid =>
    cases hl : lookupD pn gid with
    | none =>
      rw [convertStep_gpu_miss d pn acc p gid hc hg hl]
      exact hself
    | some g =>
      rw [convertStep_gpu d pn acc p gid g hc hg hl]
      exact mem_keysD_dictInsert_of_mem _ _ _ _ hself

theorem foldConvert_keys_mono (d : Nat) (pn : List (Int × PyTorchNode))
    (iter : List (Int × PyTorchNode)) (acc : List (Int × ChakraNode)) (x : Int)
    (hx : x ∈ keysD acc) :
    x ∈ keysD (iter.foldl (fun acc e => convertStep d pn acc e.2) acc) := by
  induction iter generalizing acc with
  | nil => exact hx
  | cons f rest ih =>
    exact ih _ (convertStep_keys_mono d pn acc f.2 x hx)

theorem foldConvert_mem_key (d : Nat) (pn : List (Int × PyTorchNode))
    (iter : List (Int × PyTorchNode)) (acc : List (Int × ChakraNode))
    (e : Int × PyTorchNode) (he : e ∈ iter) (hc : isCpuOrLabel e.2 = true) :
    e.2.id ∈ keysD (iter.foldl (fun acc x => convertStep d pn acc x.2) acc) := by
  induction iter generalizing acc with
  | nil => simp at he
  | cons f rest ih =>
    rcases List.mem_cons.mp he with h | h
    · subst h
      simp only [List.foldl_cons]
      exact foldConvert_keys_mono d pn rest _ e.2.id (convertStep_self_key d pn acc e.2 hc)
    · simp only [List.foldl_cons]
      exact ih _ h

/-- C5: the classifier is a pure function of the record applying the five
rules in first-match-wins order (the source classifier equals the
spec-ordered cascade), and an INVALID-classified CPU/LABEL record is still
kept as an output node by the conversion loop rather than dropped. -/
theorem C5_classifier_rules :
    (∀ p : PyTorchNode, get_chakra_node_type_from_pytorch_node p = specNodeType p) ∧
    (∀ (d : Nat) (pn : List (Int × PyTorchNode)) (e : Int × PyTorchNode), e ∈ pn →
      isCpuOrLabel e.2 = true → e.2.id ∈ keysD (convertNodes d pn)) := by
  constructor
  · intro p
    unfold get_chakra_node_type_from_pytorch_node specNodeType hasCollectiveKernelMarker
      hasCollectiveCallMarker PyTorchNode.is_gpu_op
    cases h : p.get_op_type <;> simp [h]
  · intro d pn e he hc
    unfold convertNodes
    exact foldConvert_mem_key d pn pn [] e he hc

/-- Witness for C5 at a concrete input: a CPU record with empty call schema
and no outputs is classified INVALID and still appears in the output
collection. -/
theorem C5_witness :
    ((1 : Int), mkRecord 1 "foo" PyTorchNodeType.CPU_OP) ∈
      [((1 : Int), mkRecord 1 "foo" PyTorchNodeType.CPU_OP)] ∧
    get_chakra_node_type_from_pytorch_node (mkRecord 1 "foo" PyTorchNodeType.CPU_OP) =
      ChakraNodeType.INVALID_NODE ∧
    (1 : Int) ∈ keysD (convertNodes 1 [(1, mkRecord 1 "foo" PyTorchNodeType.CPU_OP)]) := by
  refine ⟨by decide, ?_, ?_⟩
  · rw [C5_classifier_rules.1]
    decide
  · exact C5_classifier_rules.2 1 [(1, mkRecord 1 "foo" PyTorchNodeType.CPU_OP)]
      (1, mkRecord 1 "foo" PyTorchNodeType.CPU_OP) (by decide) (by decide)

/-! ### Node translator control dependencies: claim C9 -/

/-- C9: for every record translated into an output node, the node's
control-dependency list has at most one entry; it is exactly the record's
structural parent id when that parent is present in the output collection
at translation time, and empty otherwise. -/
theorem C9_ctrl_deps (m : List (Int × ChakraNode)) (p : PyTorchNode) :
    (convert_to_chakra_node m p).ctrl_deps.length ≤ 1 ∧
    (p.parent ∈ keysD m → (convert_to_chakra_node m p).ctrl_deps = [p.parent]) ∧
    (p.parent ∉ keysD m → (convert_to_chakra_node m p).ctrl_deps = []) := by
  unfold convert_to_chakra_node
  by_cases h : p.parent ∈ keysD m <;> simp [h]

/-- Witness for C9 at a concrete input: with the parent id 7 present in the
output collection the singleton [7] is produced, and with an empty
collection nothing is. -/
theorem C9_witness :
    (convert_to_chakra_node [(7, mkNode 7 [])]
      { mkRecord 1 "x" PyTorchNodeType.CPU_OP with parent := 7 }).ctrl_deps = [7] ∧
    (convert_to_chakra_node []
      { mkRecord 1 "x" PyTorchNodeType.CPU_OP with parent := 7 }).ctrl_deps = [] := by
  constructor
  · exact (C9_ctrl_deps [(7, mkNode 7 [])]
      { mkRecord 1 "x" PyTorchNodeType.CPU_OP with parent := 7 }).2.1 (by decide)
  · exact (C9_ctrl_deps []
      { mkRecord 1 "x" PyTorchNodeType.CPU_OP with parent := 7 }).2.2 (by decide)

/-! ### Graph sanitizer: claims C7 and C10 -/

theorem mem_remove_dangling_iff (nodes : List (Int × ChakraNode)) (e : Int × ChakraNode) :
    e ∈ remove_dangling_nodes nodes ↔ e ∈ nodes ∧ isDangling nodes e = false := by
  unfold remove_dangling_nodes
  rw [List.mem_filter]
  simp

theorem isDangling_eq_true_iff (nodes : List (Int × ChakraNode)) (e : Int × ChakraNode) :
    isDangling nodes e = true ↔
      e.2.data_deps = [] ∧ ∀ f ∈ nodes, e.1 ∉ f.2.data_deps := by
  unfold isDangling
  rw [Bool.and_eq_true, Bool.not_eq_true', List.any_eq_false, List.isEmpty_iff]
  simp only [decide_eq_true_eq]
  tauto

/-- C7: after sanitization every surviving output node has a non-empty
data_deps list or its id appears in another surviving node's data_deps;
and a node of the collection is removed exactly when its data_deps list is
empty and no node of the pre-removal collection names it as a
dependency. -/
theorem C7_no_dangling_survivors (nodes : List (Int × ChakraNode))
    (hnd : (keysD nodes).Nodup) :
    (∀ e ∈ remove_dangling_nodes nodes, e.2.data_deps ≠ [] ∨
      ∃ f ∈ remove_dangling_nodes nodes, f.1 ≠ e.1 ∧ e.1 ∈ f.2.data_deps) ∧
    (∀ e ∈ nodes, (e ∉ remove_dangling_nodes nodes ↔
      (e.2.data_deps = [] ∧ ∀ f ∈ nodes, e.1 ∉ f.2.data_deps))) := by
  unfold keysD at hnd
  constructor
  · intro e he
    rw [mem_remove_dangling_iff] at he
    obtain ⟨hmem, hnd2⟩ := he
    by_cases hdeps : e.2.data_deps = []
    · right
      have hnot : ¬(e.2.data_deps = [] ∧ ∀ f ∈ nodes, e.1 ∉ f.2.data_deps) := by
        intro hcon
        rw [← isDangling_eq_true_iff] at hcon
        rw [hcon] at hnd2
        exact absurd hnd2 (by simp)
      push_neg at hnot
      obtain ⟨f, hf, hfe⟩ := hnot hdeps
      refine ⟨f, ?_, ?_, hfe⟩
      · rw [mem_remove_dangling_iff]
        refine ⟨hf, ?_⟩
        rw [Bool.eq_false_iff]
        intro hcon
        rw [isDangling_eq_true_iff] at hcon
        rw [hcon.1] at hfe
        exact absurd hfe (List.not_mem_nil _)
      · intro hcon
        have hef : e = f := List.inj_on_of_nodup_map hnd hmem hf hcon.symm
        subst hef
        rw [hdeps] at hfe
        exact absurd hfe (List.not_mem_nil _)
    · left
      exact hdeps
  · intro e he
    rw [mem_remove_dangling_iff, ← isDangling_eq_true_iff]
    constructor
    · intro h
      by_contra hcon
      exact h ⟨he, Bool.eq_false_iff.mpr hcon⟩
    · intro h hcon
      rw [h] at hcon
      exact absurd hcon.2 (by simp)

/-- Witness for C7 at a concrete input: node 1 depends on node 2, node 3 is
dangling; node 3 is removed, and the removal condition of the second
conjunct holds for it. -/
theorem C7_witness :
    (keysD [((1 : Int), mkNode 1 [2]), (2, mkNode 2 []), (3, mkNode 3 [])]).Nodup ∧
    (((3 : Int), mkNode 3 []) ∉
      remove_dangling_nodes [((1 : Int), mkNode 1 [2]), (2, mkNode 2 []), (3, mkNode 3 [])]) := by
  refine ⟨by decide, ?_⟩
  rw [(C7_no_dangling_survivors [((1 : Int), mkNode 1 [2]), (2, mkNode 2 []), (3, mkNode 3 [])]
    (by decide)).2 ((3 : Int), mkNode 3 []) (by decide)]
  decide

/-- C10: dangling-node removal is reference-closed: when every id named in
some node's data_deps is a key of the collection, then after
remove_dangling_nodes every id occurring in a surviving node's data_deps
is still a key of the surviving collection. -/
theorem C10_removal_reference_closed (nodes : List (Int × ChakraNode))
    (hclosed : ∀ e ∈ nodes, ∀ i ∈ e.2.data_deps, i ∈ keysD nodes) :
    ∀ e ∈ remove_dangling_nodes nodes, ∀ i ∈ e.2.data_deps,
      i ∈ keysD (remove_dangling_nodes nodes) := by
  intro e he i hi
  rw [mem_remove_dangling_iff] at he
  have hkey : i ∈ keysD nodes := hclosed e he.1 i hi
  unfold keysD at hkey
  rw [List.mem_map] at hkey
  obtain ⟨f, hf, hfi⟩ := hkey
  have hfsurv : f ∈ remove_dangling_nodes nodes := by
    rw [mem_remove_dangling_iff]
    refine ⟨hf, ?_⟩
    rw [Bool.eq_false_iff]
    intro hcon
    rw [isDangling_eq_true_iff] at hcon
    exact hcon.2 e he.1 (hfi ▸ hi)
  unfold keysD
  rw [List.mem_map]
  exact ⟨f, hfsurv, hfi⟩

/-- Witness for C10 at a concrete input: the reference-closed collection
where node 1 names node 2 keeps key 2 after removal. -/
theorem C10_witness :
    (∀ e ∈ [((1 : Int), mkNode 1 [2]), (2, mkNode 2 [])],
      ∀ i ∈ e.2.data_deps, i ∈ keysD [((1 : Int), mkNode 1 [2]), (2, mkNode 2 [])]) ∧
    (2 : Int) ∈ keysD (remove_dangling_nodes [((1 : Int), mkNode 1 [2]), (2, mkNode 2 [])]) := by
  refine ⟨by decide, ?_⟩
  exact C10_removal_reference_closed [((1 : Int), mkNode 1 [2]), (2, mkNode 2 [])] (by decide)
    (1, mkNode 1 [2]) (by decide) 2 (by decide)

/-! ### Trace writer: claim C8 -/

theorem lookupD_of_mem_nodup {α : Type} (l : List (Int × α))
    (hnd : (keysD l).Nodup) (e : Int × α) (he : e ∈ l) :
    lookupD l e.1 = some e.2 := by
  induction l with
  | nil => simp at he
  | cons p rest ih =>
    obtain ⟨k₀, v₀⟩ := p
    rw [keysD_cons, List.nodup_cons] at hnd
    rcases List.mem_cons.mp he with h | h
    · subst h
      simp [lookupD]
    · have hne : k₀ ≠ e.1 := by
        intro hcon
        apply hnd.1
        unfold keysD
        rw [hcon]
        exact List.mem_map.mpr ⟨e, h, rfl⟩
      rw [lookupD_cons, if_neg hne]
      exact ih hnd.2 h

theorem writeNodesLoop_nodup (nodes : List (Int × ChakraNode)) (seen : Finset Int)
    (s : List Int) (hnd : s.Nodup) (hfresh : ∀ x ∈ s, x ∉ seen) :
    writeNodesLoop nodes seen s =
      (s.map (fun k => (lookupD nodes k).getD default), none) := by
  induction s generalizing seen with
  | nil => rfl
  | cons nid rest ih =>
    rw [List.nodup_cons] at hnd
    have hmem : nid ∉ seen := hfresh nid (List.mem_cons_self _ _)
    unfold writeNodesLoop
    rw [if_neg hmem]
    have hrest : ∀ x ∈ rest, x ∉ insert nid seen := by
      intro x hx
      rw [Finset.mem_insert]
      push_neg
      exact ⟨fun hcon => hnd.1 (hcon ▸ hx), hfresh x (List.mem_cons_of_mem _ hx)⟩
    rw [ih (insert nid seen) hnd.2 hrest]
    rfl

theorem writeNodesLoop_dup (nodes : List (Int × ChakraNode)) (seen : Finset Int)
    (s : List Int) (hdup : ¬s.Nodup ∨ ∃ x ∈ s, x ∈ seen) :
    ((writeNodesLoop nodes seen s).2).isSome = true := by
  induction s generalizing seen with
  | nil =>
    rcases hdup with h | ⟨x, hx, _⟩
    · exact absurd List.nodup_nil h
    · simp at hx
  | cons nid rest ih =>
    by_cases hmem : nid ∈ seen
    · unfold writeNodesLoop
      rw [if_pos hmem]
      rfl
    · unfold writeNodesLoop
      rw [if_neg hmem]
      apply ih
      rcases hdup with h | ⟨x, hx, hxs⟩
      · rw [List.nodup_cons] at h
        push_neg at h
        by_cases hin : nid ∈ rest
        · exact Or.inr ⟨nid, hin, Finset.mem_insert_self _ _⟩
        · exact Or.inl (h hin)
      · rcases List.mem_cons.mp hx with h1 | h1
        · exact absurd (h1 ▸ hxs) hmem
        · exact Or.inr ⟨x, h1, Finset.mem_insert_of_mem hxs⟩

theorem map_lookup_keys (nodes : List (Int × ChakraNode)) (hnd : (keysD nodes).Nodup) :
    (keysD nodes).map (fun k => (lookupD nodes k).getD default) = nodes.map Prod.snd := by
  unfold keysD
  rw [List.map_map]
  apply List.map_congr_left
  intro e he
  simp only [Function.comp_apply]
  rw [lookupD_of_mem_nodup nodes hnd e he]
  rfl

/-- C8 (amended): the writer emits one metadata record followed by the
surviving output nodes in strictly ascending id order; when the id-keyed
collection holds two nodes sharing an id, the writer fails fatally when
the duplicated id is reached in sorted order (nodes with smaller ids have
already been written, as the counterexample shows). -/
theorem C8_writer_sorted (schema : String) (pid : Int) (time : String) (st ft : Int)
    (nodes : List (Int × ChakraNode)) (hid : ∀ e ∈ nodes, e.2.id = e.1) :
    ((keysD nodes).Nodup →
      (write_chakra_et schema pid time st ft nodes).2 = none ∧
      ∃ l : List ChakraNode,
        (write_chakra_et schema pid time st ft nodes).1 =
          TraceMessage.metadata schema pid time st ft :: l.map TraceMessage.node ∧
        l.Perm (nodes.map Prod.snd) ∧
        List.Sorted (· < ·) (l.map ChakraNode.id)) ∧
    (¬(keysD nodes).Nodup →
      ((write_chakra_et schema pid time st ft nodes).2).isSome = true) := by
  have hperm : List.Perm (sortAscInt (keysD nodes)) (keysD nodes) :=
    List.perm_insertionSort _ _
  constructor
  · intro hnd
    have hnodups : (sortAscInt (keysD nodes)).Nodup := hperm.nodup_iff.mpr hnd
    have hloop := writeNodesLoop_nodup nodes ∅ (sortAscInt (keysD nodes)) hnodups
      (by intro x hx; exact Finset.not_mem_empty x)
    constructor
    · unfold write_chakra_et encode_and_write_nodes
      rw [hloop]
    · refine ⟨(sortAscInt (keysD nodes)).map (fun k => (lookupD nodes k).getD default),
        ?_, ?_, ?_⟩
      · unfold write_chakra_et encode_and_write_nodes
        rw [hloop]
      · have h1 : List.Perm
            ((sortAscInt (keysD nodes)).map (fun k => (lookupD nodes k).getD default))
            ((keysD nodes).map (fun k => (lookupD nodes k).getD default)) := hperm.map _
        have h2 : (keysD nodes).map (fun k => (lookupD nodes k).getD default) =
            nodes.map Prod.snd := map_lookup_keys nodes hnd
        exact h2 ▸ h1
      · have hids : ((sortAscInt (keysD nodes)).map
            (fun k => (lookupD nodes k).getD default)).map ChakraNode.id =
            sortAscInt (keysD nodes) := by
          rw [List.map_map]
          have : ∀ k ∈ sortAscInt (keysD nodes),
              (ChakraNode.id ∘ fun k => (lookupD nodes k).getD default) k = id k := by
            intro k hk
            have hk2 : k ∈ keysD nodes := hperm.mem_iff.mp hk
            unfold keysD at hk2
            rw [List.mem_map] at hk2
            obtain ⟨e, he, hek⟩ := hk2
            simp only [Function.comp_apply, id_eq]
            rw [← hek, lookupD_of_mem_nodup nodes hnd e he]
            exact hid e he
          rw [List.map_congr_left this, List.map_id]
        rw [hids]
        exact (List.sorted_insertionSort _ _).lt_of_le hnodups
  · intro hnd
    have hnodups : ¬(sortAscInt (keysD nodes)).Nodup := fun h => hnd (hperm.nodup_iff.mp h)
    have := writeNodesLoop_dup nodes ∅ (sortAscInt (keysD nodes)) (Or.inl hnodups)
    unfold write_chakra_et encode_and_write_nodes
    simpa using this

/-- Witness for C8 at a concrete input: three unique-id nodes {5, 2, 9}
are written as one metadata record followed by nodes 2, 5, 9. -/
theorem C8_witness :
    (∀ e ∈ [((5 : Int), mkNode 5 []), (2, mkNode 2 []), (9, mkNode 9 [])], e.2.id = e.1) ∧
    (keysD [((5 : Int), mkNode 5 []), (2, mkNode 2 []), (9, mkNode 9 [])]).Nodup ∧
    (write_chakra_et "schema" 1 "time" 0 10
        [((5 : Int), mkNode 5 []), (2, mkNode 2 []), (9, mkNode 9 [])]).2 = none ∧
    (write_chakra_et "schema" 1 "time" 0 10
        [((5 : Int), mkNode 5 []), (2, mkNode 2 []), (9, mkNode 9 [])]).1 =
      [TraceMessage.metadata "schema" 1 "time" 0 10,
       TraceMessage.node (mkNode 2 []), TraceMessage.node (mkNode 5 []),
       TraceMessage.node (mkNode 9 [])] := by
  refine ⟨by decide, by decide, ?_, by decide⟩
  exact ((C8_writer_sorted "schema" 1 "time" 0 10
    [((5 : Int), mkNode 5 []), (2, mkNode 2 []), (9, mkNode 9 [])] (by decide)).1 (by decide)).1

/-- Counterexample for C8 as stated: with two nodes sharing id 5 the
writer does fail fatally, but only after the metadata record and the nodes
with ids 2 and 5 have already been written, not before any node record. -/
theorem C8_counterexample :
    write_chakra_et "s" 0 "t" 0 0
        [((2 : Int), mkNode 2 []), (5, mkNode 5 []), (5, mkNamedNode 5 "b" [])] =
      ([TraceMessage.metadata "s" 0 "t" 0 0,
        TraceMessage.node (mkNode 2 []), TraceMessage.node (mkNode 5 [])],
       some "Duplicate NID 5 detected in Chakra nodes.") := by
  decide

/-! ### Overlap splitter: claim C2

String append is left associated, so a piece of a message chain
t1 ++ t2 ++ ... ++ tn is reached by peeling trailing components with
strIncludes_rightext and then taking the final component of the remaining
prefix with strIncludes_tail. -/

theorem strAppend_empty (s : String) : s ++ "" = s := by
  cases s with
  | mk data => exact congrArg String.mk (List.append_nil data)

theorem strIncludes_tail (z p : String) : strIncludes (z ++ p) p :=
  ⟨z, "", (strAppend_empty (z ++ p)).symm⟩

theorem strIncludes_left (s t p : String) (h : strIncludes t p) : strIncludes (s ++ t) p := by
  obtain ⟨a, b, rfl⟩ := h
  refine ⟨s ++ a, b, ?_⟩
  simp [String.append_assoc]

theorem strIncludes_rightext (s t p : String) (h : strIncludes s p) :
    strIncludes (s ++ t) p := by
  obtain ⟨a, b, rfl⟩ := h
  refine ⟨a, b ++ t, ?_⟩
  rw [String.append_assoc (a ++ p) b t]

theorem originalCpuInfo_includes (cpu : PyTorchNode) :
    strIncludes (originalCpuInfo cpu) (toString cpu.id) ∧
    strIncludes (originalCpuInfo cpu) cpu.name := by
  unfold originalCpuInfo
  constructor
  · exact strIncludes_rightext _ _ _ (strIncludes_rightext _ _ _ (strIncludes_rightext _ _ _
      (strIncludes_rightext _ _ _ (strIncludes_rightext _ _ _ (strIncludes_tail _ _)))))
  · exact strIncludes_rightext _ _ _ (strIncludes_rightext _ _ _ (strIncludes_rightext _ _ _
      (strIncludes_tail _ _)))

theorem firstSplitErrMsg_includes (cpu : PyTorchNode) (gts fts fdur : Int) :
    strIncludes (firstSplitErrMsg cpu gts fts fdur) (toString cpu.id) ∧
    strIncludes (firstSplitErrMsg cpu gts fts fdur) cpu.name ∧
    strIncludes (firstSplitErrMsg cpu gts fts fdur) (toString fts) ∧
    strIncludes (firstSplitErrMsg cpu gts fts fdur) (toString gts) ∧
    strIncludes (firstSplitErrMsg cpu gts fts fdur) (toString fdur) := by
  unfold firstSplitErrMsg
  refine ⟨?_, ?_, ?_, ?_, ?_⟩
  · exact strIncludes_rightext _ _ _ (strIncludes_rightext _ _ _ (strIncludes_rightext _ _ _
      (strIncludes_rightext _ _ _ (strIncludes_rightext _ _ _ (strIncludes_rightext _ _ _
        (strIncludes_rightext _ _ _ (strIncludes_rightext _ _ _ (strIncludes_rightext _ _ _
          (strIncludes_rightext _ _ _
            (strIncludes_left _ _ _ (originalCpuInfo_includes cpu).1))))))))))
  · exact strIncludes_rightext _ _ _ (strIncludes_rightext _ _ _ (strIncludes_rightext _ _ _
      (strIncludes_rightext _ _ _ (strIncludes_rightext _ _ _ (strIncludes_rightext _ _ _
        (strIncludes_rightext _ _ _ (strIncludes_rightext _ _ _ (strIncludes_rightext _ _ _
          (strIncludes_rightext _ _ _
            (strIncludes_left _ _ _ (originalCpuInfo_includes cpu).2))))))))))
  · exact strIncludes_rightext _ _ _ (strIncludes_rightext _ _ _ (strIncludes_rightext _ _ _
      (strIncludes_rightext _ _ _ (strIncludes_rightext _ _ _ (strIncludes_rightext _ _ _
        (strIncludes_rightext _ _ _ (strIncludes_tail _ _)))))))
  · exact strIncludes_rightext _ _ _ (strIncludes_rightext _ _ _ (strIncludes_rightext _ _ _
      (strIncludes_rightext _ _ _ (strIncludes_tail _ _))))
  · exact strIncludes_rightext _ _ _ (strIncludes_tail _ _)

theorem secondSplitErrMsg_includes (cpu : PyTorchNode) (fts sts sdur : Int) :
    strIncludes (secondSplitErrMsg cpu fts sts sdur) (toString cpu.id) ∧
    strIncludes (secondSplitErrMsg cpu fts sts sdur) cpu.name ∧
    strIncludes (secondSplitErrMsg cpu fts sts sdur) (toString fts) ∧
    strIncludes (secondSplitErrMsg cpu fts sts sdur) (toString sts) ∧
    strIncludes (secondSplitErrMsg cpu fts sts sdur) (toString sdur) := by
  unfold secondSplitErrMsg
  refine ⟨?_, ?_, ?_, ?_, ?_⟩
  · exact strIncludes_rightext _ _ _ (strIncludes_rightext _ _ _ (strIncludes_rightext _ _ _
      (strIncludes_rightext _ _ _ (strIncludes_rightext _ _ _ (strIncludes_rightext _ _ _
        (strIncludes_rightext _ _ _ (strIncludes_rightext _ _ _ (strIncludes_rightext _ _ _
          (strIncludes_rightext _ _ _
            (strIncludes_left _ _ _ (originalCpuInfo_includes cpu).1))))))))))
  · exact strIncludes_rightext _ _ _ (strIncludes_rightext _ _ _ (strIncludes_rightext _ _ _
      (strIncludes_rightext _ _ _ (strIncludes_rightext _ _ _ (strIncludes_rightext _ _ _
        (strIncludes_rightext _ _ _ (strIncludes_rightext _ _ _ (strIncludes_rightext _ _ _
          (strIncludes_rightext _ _ _
            (strIncludes_left _ _ _ (originalCpuInfo_includes cpu).2))))))))))
  · exact strIncludes_rightext _ _ _ (strIncludes_rightext _ _ _ (strIncludes_rightext _ _ _
      (strIncludes_rightext _ _ _ (strIncludes_rightext _ _ _ (strIncludes_rightext _ _ _
        (strIncludes_rightext _ _ _ (strIncludes_tail _ _)))))))
  · exact strIncludes_rightext _ _ _ (strIncludes_rightext _ _ _ (strIncludes_rightext _ _ _
      (strIncludes_rightext _ _ _ (strIncludes_tail _ _))))
  · exact strIncludes_rightext _ _ _ (strIncludes_tail _ _)

/-- C2: for a CPU record spanning [t, t+d) with a GPU child starting at g,
the split succeeds exactly when t < g < t+d, with first.start = t,
first.duration = g - t > 0, second.start = g, second.duration = (t+d) - g
greater than 0 and first.start < second.start; when g is not strictly
inside the interval (g <= t, or a computed duration would be non-positive)
the split fails with a fatal error whose message includes the offending
record id, name and the computed bounds. -/
theorem C2_split_validity (assigner : UniqueIdAssigner) (cpu gpu : PyTorchNode) :
    (cpu.ts < gpu.ts ∧ gpu.ts < cpu.ts + cpu.dur →
      ∃ first second gpu2 a2,
        splitCpuNode assigner cpu gpu = Except.ok (first, second, gpu2, a2) ∧
        first.ts = cpu.ts ∧ first.dur = gpu.ts - cpu.ts ∧ 0 < first.dur ∧
        second.ts = gpu.ts ∧ second.dur = cpu.ts + cpu.dur - gpu.ts ∧ 0 < second.dur ∧
        first.ts < second.ts) ∧
    (gpu.ts ≤ cpu.ts →
      splitCpuNode assigner cpu gpu =
        Except.error (firstSplitErrMsg cpu gpu.ts cpu.ts (gpu.ts - cpu.ts)) ∧
      strIncludes (firstSplitErrMsg cpu gpu.ts cpu.ts (gpu.ts - cpu.ts)) (toString cpu.id) ∧
      strIncludes (firstSplitErrMsg cpu gpu.ts cpu.ts (gpu.ts - cpu.ts)) cpu.name ∧
      strIncludes (firstSplitErrMsg cpu gpu.ts cpu.ts (gpu.ts - cpu.ts)) (toString cpu.ts) ∧
      strIncludes (firstSplitErrMsg cpu gpu.ts cpu.ts (gpu.ts - cpu.ts)) (toString gpu.ts) ∧
      strIncludes (firstSplitErrMsg cpu gpu.ts cpu.ts (gpu.ts - cpu.ts))
        (toString (gpu.ts - cpu.ts))) ∧
    (cpu.ts < gpu.ts → cpu.ts + cpu.dur ≤ gpu.ts →
      splitCpuNode assigner cpu gpu =
        Except.error
          (secondSplitErrMsg cpu cpu.ts gpu.ts (cpu.dur - (gpu.ts - cpu.ts))) ∧
      strIncludes (secondSplitErrMsg cpu cpu.ts gpu.ts (cpu.dur - (gpu.ts - cpu.ts)))
        (toString cpu.id) ∧
      strIncludes (secondSplitErrMsg cpu cpu.ts gpu.ts (cpu.dur - (gpu.ts - cpu.ts)))
        cpu.name ∧
      strIncludes (secondSplitErrMsg cpu cpu.ts gpu.ts (cpu.dur - (gpu.ts - cpu.ts)))
        (toString cpu.ts) ∧
      strIncludes (secondSplitErrMsg cpu cpu.ts gpu.ts (cpu.dur - (gpu.ts - cpu.ts)))
        (toString gpu.ts) ∧
      strIncludes (secondSplitErrMsg cpu cpu.ts gpu.ts (cpu.dur - (gpu.ts - cpu.ts)))
        (toString (cpu.dur - (gpu.ts - cpu.ts)))) := by
  refine ⟨?_, ?_, ?_⟩
  · rintro ⟨h1, h2⟩
    simp only [splitCpuNode]
    split_ifs with hc1 hc2
    · have hc : cpu.ts ≥ gpu.ts ∨ gpu.ts - cpu.ts ≤ 0 := hc1
      exact absurd hc (by omega)
    · have hc : gpu.ts ≤ cpu.ts ∨ cpu.dur - (gpu.ts - cpu.ts) ≤ 0 := hc2
      exact absurd hc (by omega)
    · refine ⟨_, _, _, _, rfl, rfl, rfl, ?_, rfl, ?_, ?_, ?_⟩
      · show (0 : Int) < gpu.ts - cpu.ts
        omega
      · show cpu.dur - (gpu.ts - cpu.ts) = cpu.ts + cpu.dur - gpu.ts
        omega
      · show (0 : Int) < cpu.dur - (gpu.ts - cpu.ts)
        omega
      · show cpu.ts < gpu.ts
        omega
  · intro hg
    simp only [splitCpuNode]
    split_ifs with hc1 hc2
    · obtain ⟨i1, i2, i3, i4, i5⟩ :=
        firstSplitErrMsg_includes cpu gpu.ts cpu.ts (gpu.ts - cpu.ts)
      exact ⟨rfl, i1, i2, i3, i4, i5⟩
    · exact absurd (Or.inl (by omega : cpu.ts ≥ gpu.ts)) hc1
    · exact absurd (Or.inl (by omega : cpu.ts ≥ gpu.ts)) hc1
  · intro h1 h2
    simp only [splitCpuNode]
    split_ifs with hc1 hc2
    · have hc : cpu.ts ≥ gpu.ts ∨ gpu.ts - cpu.ts ≤ 0 := hc1
      exact absurd hc (by omega)
    · obtain ⟨i1, i2, i3, i4, i5⟩ :=
        secondSplitErrMsg_includes cpu cpu.ts gpu.ts (cpu.dur - (gpu.ts - cpu.ts))
      exact ⟨rfl, i1, i2, i3, i4, i5⟩
    · have hc : ¬(gpu.ts ≤ cpu.ts ∨ cpu.dur - (gpu.ts - cpu.ts) ≤ 0) := hc2
      exact absurd (Or.inr (by omega : cpu.dur - (gpu.ts - cpu.ts) ≤ 0)) hc

/-- Witness for C2 at a concrete input: a CPU record [0, 100) with a GPU
child at 40 splits into [0, 40) and [40, 100). -/
theorem C2_witness :
    (((0 : Int) < 40 ∧ (40 : Int) < 0 + 100)) ∧
    ∃ first second gpu2 a2,
      splitCpuNode UniqueIdAssigner.init
          { mkRecord 1 "cpuop" PyTorchNodeType.CPU_OP with ts := 0, dur := 100 }
          { mkRecord 2 "gpuop" PyTorchNodeType.GPU_OP with ts := 40, dur := 50 } =
        Except.ok (first, second, gpu2, a2) ∧
      first.ts = 0 ∧ first.dur = 40 - 0 ∧ (0 : Int) < first.dur ∧
      second.ts = 40 ∧ second.dur = 0 + 100 - 40 ∧ (0 : Int) < second.dur ∧
      first.ts < second.ts := by
  refine ⟨⟨by decide, by decide⟩, ?_⟩
  exact (C2_split_validity UniqueIdAssigner.init
    { mkRecord 1 "cpuop" PyTorchNodeType.CPU_OP with ts := 0, dur := 100 }
    { mkRecord 2 "gpuop" PyTorchNodeType.GPU_OP with ts := 40, dur := 50 }).1
    ⟨by decide, by decide⟩

/-! ### Collective attributes of the conversion loop: claim C6 -/

theorem hasCommTypeAttr_convert (m : List (Int × ChakraNode)) (p : PyTorchNode) :
    hasCommTypeAttr (convert_to_chakra_node m p) = false := rfl

theorem convert_to_chakra_node_type (m : List (Int × ChakraNode)) (p : PyTorchNode) :
    (convert_to_chakra_node m p).type = get_chakra_node_type_from_pytorch_node p := rfl

theorem hasCommTypeAttr_extend (n : ChakraNode) (g : PyTorchNode) (d : Nat) :
    hasCommTypeAttr { n with attr := n.attr ++ collExtraAttrs g d } = true := by
  simp [hasCommTypeAttr, collExtraAttrs, List.any_append]

theorem convertFold_comm_origin (d : Nat) (pn : List (Int × PyTorchNode)) :
    ∀ (iter : List (Int × PyTorchNode)), iter ⊆ pn →
    ∀ (acc : List (Int × ChakraNode)),
      (∀ e ∈ acc, hasCommTypeAttr e.2 = true → commAttrOrigin pn e) →
      ∀ e ∈ iter.foldl (fun acc x => convertStep d pn acc x.2) acc,
        hasCommTypeAttr e.2 = true → commAttrOrigin pn e := by
  intro iter
  induction iter with
  | nil =>
    intro _ acc hacc e he
    exact hacc e he
  | cons hd rest ih =>
    intro hsub acc hacc
    simp only [List.foldl_cons]
    apply ih (fun x hx => hsub (List.mem_cons_of_mem _ hx))
    intro e he hcomm
    by_cases hc : isCpuOrLabel hd.2
    · cases hg : hd.2.child_gpu with
      | none =>
        rw [convertStep_no_gpu d pn acc hd.2 hc hg] at he
        rcases mem_dictInsert _ _ _ _ he with h | h
        · exact hacc e h hcomm
        · rw [h] at hcomm
          rw [hasCommTypeAttr_convert] at hcomm
          exact absurd hcomm (by simp)
      | some gid =>
        cases hl : lookupD pn gid with
        | none =>
          rw [convertStep_gpu_miss d pn acc hd.2 gid hc hg hl] at he
          rcases mem_dictInsert _ _ _ _ he with h | h
          · exact hacc e h hcomm
          · rw [h] at hcomm
            rw [hasCommTypeAttr_convert] at hcomm
            exact absurd hcomm (by simp)
        | some g =>
          rw [convertStep_gpu d pn acc hd.2 gid g hc hg hl] at he
          rcases mem_dictInsert _ _ _ _ he with h | h
          · rcases mem_dictInsert _ _ _ _ h with h1 | h1
            · exact hacc e h1 hcomm
            · rw [h1] at hcomm
              rw [hasCommTypeAttr_convert] at hcomm
              exact absurd hcomm (by simp)
          · by_cases hb : ((convert_to_chakra_node acc hd.2).type ==
                ChakraNodeType.COMM_COLL_NODE) = true
            · refine ⟨hd, hsub (List.mem_cons_self _ _), hc, ?_, gid, g, hg, hl, ?_⟩
              · rw [← convert_to_chakra_node_type acc hd.2]
                exact beq_iff_eq.mp hb
              · rw [h]
                rfl
            · rw [h] at hcomm
              simp only at hcomm
              rw [if_neg hb] at hcomm
              rw [hasCommTypeAttr_convert] at hcomm
              exact absurd hcomm (by simp)
    · rw [convertStep_not_cpu d pn acc hd.2 (by simpa using hc)] at he
      exact hacc e he hcomm

/-- C6 (amended): the three collective attributes are attached to the GPU
child node exactly when the launching CPU/LABEL record's own output node is
classified COMM_COLL_NODE (not when the GPU node itself is): in that case
the GPU node receives exactly the three extra attributes comm_type,
comm_size, and involved_dim with one true flag per configured dimension;
otherwise the GPU node is the plain translation; and every node of the
output collection carrying such an attribute arises this way. -/
theorem C6_collective_attrs :
    (∀ (d : Nat) (pn : List (Int × PyTorchNode)) (acc : List (Int × ChakraNode))
        (p : PyTorchNode) (gid : Int) (g : PyTorchNode),
      isCpuOrLabel p = true → p.child_gpu = some gid → lookupD pn gid = some g →
      ∃ gn, convertStep d pn acc p =
          dictInsert (dictInsert acc (convert_to_chakra_node acc p).id
            (convert_to_chakra_node acc p)) gn.id gn ∧
        gn.id = g.id ∧
        (get_chakra_node_type_from_pytorch_node p = ChakraNodeType.COMM_COLL_NODE →
          gn.attr = (convert_to_chakra_node (dictInsert acc (convert_to_chakra_node acc p).id
              (convert_to_chakra_node acc p)) g).attr ++
            [⟨"comm_type", ChakraAttrVal.i64 g.collective_comm_type⟩,
             ⟨"comm_size", ChakraAttrVal.i64 g.comm_size⟩,
             ⟨"involved_dim", ChakraAttrVal.boolList (List.replicate d true)⟩] ∧
          hasCommTypeAttr gn = true) ∧
        (get_chakra_node_type_from_pytorch_node p ≠ ChakraNodeType.COMM_COLL_NODE →
          gn = convert_to_chakra_node (dictInsert acc (convert_to_chakra_node acc p).id
            (convert_to_chakra_node acc p)) g ∧
          hasCommTypeAttr gn = false)) ∧
    (∀ (d : Nat) (pn : List (Int × PyTorchNode)) (e : Int × ChakraNode),
      e ∈ convertNodes d pn → hasCommTypeAttr e.2 = true → commAttrOrigin pn e) := by
  constructor
  · intro d pn acc p gid g hc hg hl
    by_cases hb : ((convert_to_chakra_node acc p).type == ChakraNodeType.COMM_COLL_NODE) = true
    · refine ⟨{ convert_to_chakra_node (dictInsert acc (convert_to_chakra_node acc p).id
          (convert_to_chakra_node acc p)) g with
          attr := (convert_to_chakra_node (dictInsert acc (convert_to_chakra_node acc p).id
            (convert_to_chakra_node acc p)) g).attr ++ collExtraAttrs g d },
        ?_, rfl, ?_, ?_⟩
      · rw [convertStep_gpu d pn acc p gid g hc hg hl, if_pos hb]
      · intro hcol
        exact ⟨rfl, hasCommTypeAttr_extend _ g d⟩
      · intro hcol
        exfalso
        apply hcol
        have hcc := beq_iff_eq.mp hb
        rwa [convert_to_chakra_node_type] at hcc
    · refine ⟨convert_to_chakra_node (dictInsert acc (convert_to_chakra_node acc p).id
          (convert_to_chakra_node acc p)) g, ?_, rfl, ?_, ?_⟩
      · rw [convertStep_gpu d pn acc p gid g hc hg hl, if_neg hb]
      · intro hcol
        exfalso
        apply hb
        rw [convert_to_chakra_node_type, hcol]
        rfl
      · intro hcol
        exact ⟨rfl, hasCommTypeAttr_convert _ g⟩
  · intro d pn e he hcomm
    exact convertFold_comm_origin d pn pn (fun x hx => hx) []
      (by intro e he2; simp at he2) e he hcomm

/-- Counterexample for C6 as stated: a GPU record named ncclKernelFoo is
classified COLLECTIVE_COMM, but because its launching CPU record is
classified COMPUTE the translation attaches no collective attributes to
the GPU node. -/
theorem C6_counterexample :
    get_chakra_node_type_from_pytorch_node (mkRecord 2 "ncclKernelFoo" PyTorchNodeType.GPU_OP) =
      ChakraNodeType.COMM_COLL_NODE ∧
    (lookupD (convertNodes 2
        [(1, { mkRecord 1 "cpuop" PyTorchNodeType.CPU_OP with op_schema := "s", child_gpu := some 2 }),
         (2, mkRecord 2 "ncclKernelFoo" PyTorchNodeType.GPU_OP)]) 2).map hasCommTypeAttr =
      some false := by
  constructor
  · decide
  · decide

/-- Witness for C6 at a concrete input: a CPU record named with the
collective-library marker launches a GPU child, and the GPU node receives
the three collective attributes. -/
theorem C6_witness :
    isCpuOrLabel { mkRecord 1 "nccl:all_reduce" PyTorchNodeType.CPU_OP with child_gpu := some 2 }
      = true ∧
    ∃ gn, convertStep 2
        [(1, { mkRecord 1 "nccl:all_reduce" PyTorchNodeType.CPU_OP with child_gpu := some 2 }),
         (2, mkRecord 2 "gpuop" PyTorchNodeType.GPU_OP)] []
        { mkRecord 1 "nccl:all_reduce" PyTorchNodeType.CPU_OP with child_gpu := some 2 } =
        dictInsert (dictInsert []
          (convert_to_chakra_node []
            { mkRecord 1 "nccl:all_reduce" PyTorchNodeType.CPU_OP with child_gpu := some 2 }).id
          (convert_to_chakra_node []
            { mkRecord 1 "nccl:all_reduce" PyTorchNodeType.CPU_OP with child_gpu := some 2 }))
          gn.id gn ∧
      gn.id = (mkRecord 2 "gpuop" PyTorchNodeType.GPU_OP).id ∧
      (get_chakra_node_type_from_pytorch_node
          { mkRecord 1 "nccl:all_reduce" PyTorchNodeType.CPU_OP with child_gpu := some 2 } =
            ChakraNodeType.COMM_COLL_NODE →
        gn.attr = (convert_to_chakra_node (dictInsert []
            (convert_to_chakra_node []
              { mkRecord 1 "nccl:all_reduce" PyTorchNodeType.CPU_OP with child_gpu := some 2 }).id
            (convert_to_chakra_node []
              { mkRecord 1 "nccl:all_reduce" PyTorchNodeType.CPU_OP with child_gpu := some 2 }))
            (mkRecord 2 "gpuop" PyTorchNodeType.GPU_OP)).attr ++
          [⟨"comm_type", ChakraAttrVal.i64
            (mkRecord 2 "gpuop" PyTorchNodeType.GPU_OP).collective_comm_type⟩,
           ⟨"comm_size", ChakraAttrVal.i64 (mkRecord 2 "gpuop" PyTorchNodeType.GPU_OP).comm_size⟩,
           ⟨"involved_dim", ChakraAttrVal.boolList (List.replicate 2 true)⟩] ∧
        hasCommTypeAttr gn = true) ∧
      (get_chakra_node_type_from_pytorch_node
          { mkRecord 1 "nccl:all_reduce" PyTorchNodeType.CPU_OP with child_gpu := some 2 } ≠
            ChakraNodeType.COMM_COLL_NODE →
        gn = convert_to_chakra_node (dictInsert []
          (convert_to_chakra_node []
            { mkRecord 1 "nccl:all_reduce" PyTorchNodeType.CPU_OP with child_gpu := some 2 }).id
          (convert_to_chakra_node []
            { mkRecord 1 "nccl:all_reduce" PyTorchNodeType.CPU_OP with child_gpu := some 2 }))
          (mkRecord 2 "gpuop" PyTorchNodeType.GPU_OP) ∧
        hasCommTypeAttr gn = false) := by
  refine ⟨by decide, ?_⟩
  exact C6_collective_attrs.1 2
    [(1, { mkRecord 1 "nccl:all_reduce" PyTorchNodeType.CPU_OP with child_gpu := some 2 }),
     (2, mkRecord 2 "gpuop" PyTorchNodeType.GPU_OP)] []
    { mkRecord 1 "nccl:all_reduce" PyTorchNodeType.CPU_OP with child_gpu := some 2 }
    2 (mkRecord 2 "gpuop" PyTorchNodeType.GPU_OP) (by decide) rfl (by decide)

/-! ### Dependency converter: claim C1 -/

theorem lookup_addDataDep_self (m : List (Int × ChakraNode)) (i : Int) (dep : Option Int) :
    lookupD (addDataDep m i dep) i = (lookupD m i).map (applyDepOpt dep) := by
  cases dep with
  | none =>
    simp only [addDataDep, applyDepOpt]
    cases lookupD m i <;> rfl
  | some d => exact dictModify_lookup_self m i (appendDep d)

theorem lookup_addDataDep_other (m : List (Int × ChakraNode)) (i j : Int) (dep : Option Int)
    (hne : i ≠ j) : lookupD (addDataDep m i dep) j = lookupD m j := by
  cases dep with
  | none => rfl
  | some d => exact dictModify_lookup_other m i (appendDep d) j hne

theorem runConvertLoop_eq_applyTrace (pn : List (Int × PyTorchNode)) (fuel : Nat) :
    ∀ (stack : List Int) (visited : Finset Int) (lc la : Option Int)
      (m : List (Int × ChakraNode)),
      (runConvertLoop pn fuel stack visited lc la m).1 =
        applyTrace (runConvertLoop pn fuel stack visited lc la m).2 lc la m := by
  induction fuel with
  | zero =>
    intro stack visited lc la m
    rfl
  | succ fuel ih =>
    intro stack visited lc la m
    cases stack with
    | nil => rfl
    | cons current rest =>
      by_cases hv : current ∈ visited
      · simp only [runConvertLoop, if_pos hv]
        exact ih rest visited lc la m
      · simp only [runConvertLoop, if_neg hv]
        cases hp : lookupD pn current with
        | none => exact ih rest (insert current visited) lc la m
        | some p =>
          by_cases hk : p.get_op_type = PyTorchNodeType.GPU_OP
          · simp only [hk, if_pos, if_true, eq_self_iff_true]
            rw [ih]
            simp only [applyTrace, hk, if_pos, if_true, eq_self_iff_true]
          · simp only [hk, if_neg, if_false]
            rw [ih]
            simp only [applyTrace, hk, if_neg, if_false]

theorem runConvertLoop_trace_fresh (pn : List (Int × PyTorchNode)) (fuel : Nat) :
    ∀ (stack : List Int) (visited : Finset Int) (lc la : Option Int)
      (m : List (Int × ChakraNode)),
      (∀ q ∈ (runConvertLoop pn fuel stack visited lc la m).2, q.1 ∉ visited) ∧
      ((runConvertLoop pn fuel stack visited lc la m).2.map Prod.fst).Nodup := by
  induction fuel with
  | zero =>
    intro stack visited lc la m
    exact ⟨by intro q hq; simp [runConvertLoop] at hq, by simp [runConvertLoop]⟩
  | succ fuel ih =>
    intro stack visited lc la m
    cases stack with
    | nil => exact ⟨by intro q hq; simp [runConvertLoop] at hq, by simp [runConvertLoop]⟩
    | cons current rest =>
      by_cases hv : current ∈ visited
      · simp only [runConvertLoop, if_pos hv]
        exact ih rest visited lc la m
      · simp only [runConvertLoop, if_neg hv]
        cases hp : lookupD pn current with
        | none =>
          obtain ⟨hfresh, hnd⟩ := ih rest (insert current visited) lc la m
          refine ⟨?_, hnd⟩
          intro q hq hqv
          exact hfresh q hq (Finset.mem_insert_of_mem hqv)
        | some p =>
          obtain ⟨hfresh, hnd⟩ := ih
            ((sortDescInt p.children).foldl
              (fun s c =>
                if (lookupD (if p.get_op_type = PyTorchNodeType.GPU_OP then
                    addDataDep m current la else addDataDep m current lc) c).isSome = true ∧
                    c ∉ insert current visited then c :: s else s) rest)
            (insert current visited)
            (if p.get_op_type = PyTorchNodeType.GPU_OP then lc else some current)
            (some current)
            (if p.get_op_type = PyTorchNodeType.GPU_OP then
              addDataDep m current la else addDataDep m current lc)
          constructor
          · intro q hq
            simp only [List.mem_cons] at hq
            rcases hq with hq | hq
            · rw [hq]
              exact hv
            · intro hqv
              exact hfresh q hq (Finset.mem_insert_of_mem hqv)
          · simp only [List.map_cons, List.nodup_cons]
            refine ⟨?_, hnd⟩
            intro hcon
            rw [List.mem_map] at hcon
            obtain ⟨q, hq, hq1⟩ := hcon
            exact hfresh q hq (hq1 ▸ Finset.mem_insert_self current visited)

theorem prevAnyFrom_cons (la : Option Int) (i0 : Int) (k0 : PyTorchNodeType)
    (tr : List (Int × PyTorchNodeType)) (k : Nat) :
    prevAnyFrom (some i0) tr k = prevAnyFrom la ((i0, k0) :: tr) (k + 1) := by
  cases k with
  | zero => rfl
  | succ j => rfl

theorem prevCpuFrom_cons (lc : Option Int) (i0 : Int) (k0 : PyTorchNodeType)
    (tr : List (Int × PyTorchNodeType)) (k : Nat) :
    prevCpuFrom (if k0 = PyTorchNodeType.GPU_OP then lc else some i0) tr k =
      prevCpuFrom lc ((i0, k0) :: tr) (k + 1) := by
  unfold prevCpuFrom
  rw [List.take_succ_cons, List.reverse_cons, List.find?_append]
  cases hf : ((tr.take k).reverse.find? fun p => p.2 != PyTorchNodeType.GPU_OP) with
  | some q => rfl
  | none =>
    by_cases hk0 : k0 = PyTorchNodeType.GPU_OP
    · simp [hk0, List.find?]
    · simp only [List.find?]
      have : ((i0, k0).2 != PyTorchNodeType.GPU_OP) = true := by
        simp [hk0]
      simp [this, hk0]

theorem applyTrace_characterization :
    ∀ (tr : List (Int × PyTorchNodeType)) (lc la : Option Int)
      (m : List (Int × ChakraNode)), (tr.map Prod.fst).Nodup →
      (∀ i, i ∉ tr.map Prod.fst → lookupD (applyTrace tr lc la m) i = lookupD m i) ∧
      (∀ (k : Nat) (hk : k < tr.length),
        lookupD (applyTrace tr lc la m) (tr.get ⟨k, hk⟩).1 =
          (lookupD m (tr.get ⟨k, hk⟩).1).map
            (applyDepOpt (if (tr.get ⟨k, hk⟩).2 = PyTorchNodeType.GPU_OP
              then prevAnyFrom la tr k else prevCpuFrom lc tr k))) := by
  intro tr
  induction tr with
  | nil =>
    intro lc la m hnd
    exact ⟨fun i hi => rfl, fun k hk => absurd hk (by simp)⟩
  | cons hd tr ih =>
    obtain ⟨i0, k0⟩ := hd
    intro lc la m hnd
    simp only [List.map_cons, List.nodup_cons] at hnd
    obtain ⟨hi0, hnd2⟩ := hnd
    cases k0 with
    | GPU_OP =>
      obtain ⟨ihA, ihB⟩ := ih lc (some i0) (addDataDep m i0 la) hnd2
      constructor
      · intro i hi
        simp only [List.map_cons, List.mem_cons] at hi
        push_neg at hi
        show lookupD (applyTrace tr lc (some i0) (addDataDep m i0 la)) i = lookupD m i
        rw [ihA i hi.2, lookup_addDataDep_other m i0 i la (Ne.symm hi.1)]
      · intro k hk
        match k with
        | 0 =>
          show lookupD (applyTrace tr lc (some i0) (addDataDep m i0 la)) i0 =
            (lookupD m i0).map (applyDepOpt la)
          rw [ihA i0 hi0, lookup_addDataDep_self m i0 la]
        | k + 1 =>
          have hklen : k < tr.length := by simpa using hk
          show lookupD (applyTrace tr lc (some i0) (addDataDep m i0 la))
              (tr.get ⟨k, hklen⟩).1 =
            (lookupD m (tr.get ⟨k, hklen⟩).1).map
              (applyDepOpt (if (tr.get ⟨k, hklen⟩).2 = PyTorchNodeType.GPU_OP
                then prevAnyFrom la ((i0, PyTorchNodeType.GPU_OP) :: tr) (k + 1)
                else prevCpuFrom lc ((i0, PyTorchNodeType.GPU_OP) :: tr) (k + 1)))
          rw [ihB k hklen]
          have hne : i0 ≠ (tr.get ⟨k, hklen⟩).1 := by
            intro hcon
            exact hi0 (hcon ▸ List.mem_map_of_mem Prod.fst (tr.get_mem k hklen))
          rw [lookup_addDataDep_other m i0 _ la hne]
          rw [prevAnyFrom_cons la i0 PyTorchNodeType.GPU_OP tr k]
          have hcpu := prevCpuFrom_cons lc i0 PyTorchNodeType.GPU_OP tr k
          rw [if_pos rfl] at hcpu
          rw [hcpu]
    | CPU_OP =>
      obtain ⟨ihA, ihB⟩ := ih (some i0) (some i0) (addDataDep m i0 lc) hnd2
      constructor
      · intro i hi
        simp only [List.map_cons, List.mem_cons] at hi
        push_neg at hi
        show lookupD (applyTrace tr (some i0) (some i0) (addDataDep m i0 lc)) i = lookupD m i
        rw [ihA i hi.2, lookup_addDataDep_other m i0 i lc (Ne.symm hi.1)]
      · intro k hk
        match k with
        | 0 =>
          show lookupD (applyTrace tr (some i0) (some i0) (addDataDep m i0 lc)) i0 =
            (lookupD m i0).map (applyDepOpt lc)
          rw [ihA i0 hi0, lookup_addDataDep_self m i0 lc]
        | k + 1 =>
          have hklen : k < tr.length := by simpa using hk
          show lookupD (applyTrace tr (some i0) (some i0) (addDataDep m i0 lc))
              (tr.get ⟨k, hklen⟩).1 =
            (lookupD m (tr.get ⟨k, hklen⟩).1).map
              (applyDepOpt (if (tr.get ⟨k, hklen⟩).2 = PyTorchNodeType.GPU_OP
                then prevAnyFrom la ((i0, PyTorchNodeType.CPU_OP) :: tr) (k + 1)
                else prevCpuFrom lc ((i0, PyTorchNodeType.CPU_OP) :: tr) (k + 1)))
          rw [ihB k hklen]
          have hne : i0 ≠ (tr.get ⟨k, hklen⟩).1 := by
            intro hcon
            exact hi0 (hcon ▸ List.mem_map_of_mem Prod.fst (tr.get_mem k hklen))
          rw [lookup_addDataDep_other m i0 _ lc hne]
          have hany : prevAnyFrom (some i0) tr k =
              prevAnyFrom la ((i0, PyTorchNodeType.CPU_OP) :: tr) (k + 1) :=
            prevAnyFrom_cons la i0 PyTorchNodeType.CPU_OP tr k
          rw [hany]
          have hcpu := prevCpuFrom_cons lc i0 PyTorchNodeType.CPU_OP tr k
          rw [if_neg (by decide)] at hcpu
          rw [hcpu]
    | LABEL =>
      obtain ⟨ihA, ihB⟩ := ih (some i0) (some i0) (addDataDep m i0 lc) hnd2
      constructor
      · intro i hi
        simp only [List.map_cons, List.mem_cons] at hi
        push_neg at hi
        show lookupD (applyTrace tr (some i0) (some i0) (addDataDep m i0 lc)) i = lookupD m i
        rw [ihA i hi.2, lookup_addDataDep_other m i0 i lc (Ne.symm hi.1)]
      · intro k hk
        match k with
        | 0 =>
          show lookupD (applyTrace tr (some i0) (some i0) (addDataDep m i0 lc)) i0 =
            (lookupD m i0).map (applyDepOpt lc)
          rw [ihA i0 hi0, lookup_addDataDep_self m i0 lc]
        | k + 1 =>
          have hklen : k < tr.length := by simpa using hk
          show lookupD (applyTrace tr (some i0) (some i0) (addDataDep m i0 lc))
              (tr.get ⟨k, hklen⟩).1 =
            (lookupD m (tr.get ⟨k, hklen⟩).1).map
              (applyDepOpt (if (tr.get ⟨k, hklen⟩).2 = PyTorchNodeType.GPU_OP
                then prevAnyFrom la ((i0, PyTorchNodeType.LABEL) :: tr) (k + 1)
                else prevCpuFrom lc ((i0, PyTorchNodeType.LABEL) :: tr) (k + 1)))
          rw [ihB k hklen]
          have hne : i0 ≠ (tr.get ⟨k, hklen⟩).1 := by
            intro hcon
            exact hi0 (hcon ▸ List.mem_map_of_mem Prod.fst (tr.get_mem k hklen))
          rw [lookup_addDataDep_other m i0 _ lc hne]
          have hany : prevAnyFrom (some i0) tr k =
              prevAnyFrom la ((i0, PyTorchNodeType.LABEL) :: tr) (k + 1) :=
            prevAnyFrom_cons la i0 PyTorchNodeType.LABEL tr k
          rw [hany]
          have hcpu := prevCpuFrom_cons lc i0 PyTorchNodeType.LABEL tr k
          rw [if_neg (by decide)] at hcpu
          rw [hcpu]

/-- C1: a traversal of convert_ctrl_dep_to_data_dep started at a root node
visits each node at most once; a visited CPU/LABEL node gains exactly one
new data dependency on the nearest preceding CPU/LABEL node in traversal
order (none when there is no such predecessor, nothing when the id is
already present), a visited GPU node gains exactly one new data dependency
on the most recently visited node of any kind, a GPU node never updates
the CPU-only cursor (prevCpuFrom skips GPU entries), and unvisited nodes
are unchanged. -/
theorem C1_ctrl_to_data_dep (pn : List (Int × PyTorchNode)) (m0 : List (Int × ChakraNode))
    (root : Int) (fuel : Nat) (hroot : (lookupD m0 root).isSome = true) :
    ∀ (mOut : List (Int × ChakraNode)) (tr : List (Int × PyTorchNodeType)),
      runConvertLoop pn fuel [root] ∅ none none m0 = (mOut, tr) →
      convert_ctrl_dep_to_data_dep pn m0 root fuel = mOut ∧
      (tr.map Prod.fst).Nodup ∧
      (∀ i, i ∉ tr.map Prod.fst → lookupD mOut i = lookupD m0 i) ∧
      (∀ (k : Nat) (hk : k < tr.length),
        lookupD mOut (tr.get ⟨k, hk⟩).1 =
          (lookupD m0 (tr.get ⟨k, hk⟩).1).map
            (applyDepOpt (if (tr.get ⟨k, hk⟩).2 = PyTorchNodeType.GPU_OP
              then prevAnyFrom none tr k else prevCpuFrom none tr k))) := by
  intro mOut tr heq
  have h1 := runConvertLoop_eq_applyTrace pn fuel [root] ∅ none none m0
  have h2 := runConvertLoop_trace_fresh pn fuel [root] ∅ none none m0
  rw [heq] at h1 h2
  simp only at h1 h2
  have hnd : (tr.map Prod.fst).Nodup := h2.2
  obtain ⟨hA, hB⟩ := applyTrace_characterization tr none none m0 hnd
  refine ⟨?_, hnd, ?_, ?_⟩
  · unfold convert_ctrl_dep_to_data_dep
    rw [heq]
  · intro i hi
    rw [h1]
    exact hA i hi
  · intro k hk
    rw [h1]
    exact hB k hk

/-- Witness for C1 at a concrete input: a LABEL root 1 with CPU child 2,
whose children are CPU node 3 and GPU node 4.  The traversal visits
1, 2, 3, 4; node 2 depends on 1, node 3 on 2 (the nearest preceding
CPU/LABEL node), and GPU node 4 on 3 (the most recently visited node). -/
theorem C1_witness :
    (lookupD [((1 : Int), mkNode 1 []), (2, mkNode 2 []), (3, mkNode 3 []),
      (4, mkNode 4 [])] 1).isSome = true ∧
    convert_ctrl_dep_to_data_dep
      [((1 : Int), { mkRecord 1 "root" PyTorchNodeType.LABEL with children := [2] }),
       (2, { mkRecord 2 "b" PyTorchNodeType.CPU_OP with children := [4, 3] }),
       (3, mkRecord 3 "c" PyTorchNodeType.CPU_OP),
       (4, mkRecord 4 "d" PyTorchNodeType.GPU_OP)]
      [((1 : Int), mkNode 1 []), (2, mkNode 2 []), (3, mkNode 3 []), (4, mkNode 4 [])]
      1 10 =
      [((1 : Int), mkNode 1 []), (2, mkNode 2 [1]), (3, mkNode 3 [2]), (4, mkNode 4 [3])] := by
  refine ⟨by decide, ?_⟩
  exact (C1_ctrl_to_data_dep
    [((1 : Int), { mkRecord 1 "root" PyTorchNodeType.LABEL with children := [2] }),
     (2, { mkRecord 2 "b" PyTorchNodeType.CPU_OP with children := [4, 3] }),
     (3, mkRecord 3 "c" PyTorchNodeType.CPU_OP),
     (4, mkRecord 4 "d" PyTorchNodeType.GPU_OP)]
    [((1 : Int), mkNode 1 []), (2, mkNode 2 []), (3, mkNode 3 []), (4, mkNode 4 [])]
    1 10 (by decide)
    [((1 : Int), mkNode 1 []), (2, mkNode 2 [1]), (3, mkNode 3 [2]), (4, mkNode 4 [3])]
    [(1, PyTorchNodeType.LABEL), (2, PyTorchNodeType.CPU_OP),
     (3, PyTorchNodeType.CPU_OP), (4, PyTorchNodeType.GPU_OP)]
    (by decide)).1

/-! ### Cycle detection: claim C3 -/

theorem dfsChildren_mono
    (next next' : Int → List Int → Finset Int → Finset Int →
      Option (Option (List Int) × Finset Int))
    (hmono : ∀ u p v s r, next u p v s = some r → next' u p v s = some r) :
    ∀ (cs : List Int) (path : List Int) (visited stack : Finset Int) r,
      dfsChildren next cs path visited stack = some r →
      dfsChildren next' cs path visited stack = some r := by
  intro cs
  induction cs with
  | nil =>
    intro path visited stack r h
    exact h
  | cons c cs ih =>
    intro path visited stack r h
    unfold dfsChildren at h ⊢
    cases hn : next c path visited stack with
    | none =>
      rw [hn] at h
      exact absurd h (by simp)
    | some q =>
      rw [hn] at h
      rw [hmono _ _ _ _ _ hn]
      obtain ⟨b, v⟩ := q
      cases b with
      | none => exact ih _ _ _ _ h
      | some cyc => exact h

theorem dfsDetect_mono (m : List (Int × ChakraNode)) :
    ∀ (fuel : Nat) (u : Int) (path : List Int) (visited stack : Finset Int) r,
      dfsDetect m fuel u path visited stack = some r →
      dfsDetect m (fuel + 1) u path visited stack = some r := by
  intro fuel
  induction fuel with
  | zero =>
    intro u path visited stack r h
    exact absurd h (by simp [dfsDetect])
  | succ fuel ih =>
    intro u path visited stack r h
    unfold dfsDetect at h ⊢
    by_cases hs : u ∈ stack
    · rwa [if_pos hs] at h ⊢
    · rw [if_neg hs] at h ⊢
      by_cases hv : u ∈ visited
      · rwa [if_pos hv] at h ⊢
      · rw [if_neg hv] at h ⊢
        exact dfsChildren_mono _ _ (fun u2 p2 v2 s2 r2 => ih u2 p2 v2 s2 r2) _ _ _ _ _ h

theorem dfsDetect_mono_le (m : List (Int × ChakraNode)) (f f' : Nat) (hle : f ≤ f') :
    ∀ (u : Int) (path : List Int) (visited stack : Finset Int) r,
      dfsDetect m f u path visited stack = some r →
      dfsDetect m f' u path visited stack = some r := by
  induction hle with
  | refl => exact fun u p v s r h => h
  | step hle2 ih =>
    intro u p v s r h
    exact dfsDetect_mono m _ u p v s r (ih u p v s r h)

theorem dfsChildren_visited_mono
    (next : Int → List Int → Finset Int → Finset Int →
      Option (Option (List Int) × Finset Int))
    (hnext : ∀ u p v s b v', next u p v s = some (b, v') → v ⊆ v') :
    ∀ (cs path : List Int) (visited stack : Finset Int) b v',
      dfsChildren next cs path visited stack = some (b, v') → visited ⊆ v' := by
  intro cs
  induction cs with
  | nil =>
    intro path visited stack b v' h
    simp only [dfsChildren, Option.some_inj] at h
    rw [← (Prod.mk.injEq .. |>.mp h).2]
  | cons c cs ih =>
    intro path visited stack b v' h
    unfold dfsChildren at h
    cases hn : next c path visited stack with
    | none =>
      rw [hn] at h
      exact absurd h (by simp)
    | some q =>
      rw [hn] at h
      obtain ⟨b0, v0⟩ := q
      cases b0 with
      | none => exact (hnext _ _ _ _ _ _ hn).trans (ih _ _ _ _ _ h)
      | some cyc =>
        simp only [Option.some_inj] at h
        have := (Prod.mk.injEq .. |>.mp h).2
        rw [← this]
        exact hnext _ _ _ _ _ _ hn

theorem dfsDetect_visited_mono (m : List (Int × ChakraNode)) :
    ∀ (fuel : Nat) (u : Int) (path : List Int) (visited stack : Finset Int) b v',
      dfsDetect m fuel u path visited stack = some (b, v') → visited ⊆ v' := by
  intro fuel
  induction fuel with
  | zero =>
    intro u path visited stack b v' h
    exact absurd h (by simp [dfsDetect])
  | succ fuel ih =>
    intro u path visited stack b v' h
    unfold dfsDetect at h
    by_cases hs : u ∈ stack
    · rw [if_pos hs] at h
      simp only [Option.some_inj] at h
      rw [← (Prod.mk.injEq .. |>.mp h).2]
    · rw [if_neg hs] at h
      by_cases hv : u ∈ visited
      · rw [if_pos hv] at h
        simp only [Option.some_inj] at h
        rw [← (Prod.mk.injEq .. |>.mp h).2]
      · rw [if_neg hv] at h
        have := dfsChildren_visited_mono _ (fun u2 p2 v2 s2 b2 v2' => ih u2 p2 v2 s2 b2 v2')
          _ _ _ _ _ _ h
        exact (Finset.subset_insert u visited).trans this

theorem dfsChildren_total (m : List (Int × ChakraNode)) (k : Nat)
    (hk : ∀ (visited : Finset Int), ((keysD m).toFinset \ visited).card < k →
      ∀ (u : Int) (path : List Int) (stack : Finset Int),
        ∃ f, (dfsDetect m f u path visited stack).isSome = true) :
    ∀ (cs : List Int) (visited : Finset Int),
      ((keysD m).toFinset \ visited).card < k →
      ∀ (path : List Int) (stack : Finset Int),
        ∃ f, (dfsChildren (dfsDetect m f) cs path visited stack).isSome = true := by
  intro cs
  induction cs with
  | nil =>
    intro visited hcard path stack
    exact ⟨0, by simp [dfsChildren]⟩
  | cons c cs ih =>
    intro visited hcard path stack
    obtain ⟨f1, hf1⟩ := hk visited hcard c path stack
    cases hr : dfsDetect m f1 c path visited stack with
    | none =>
      rw [hr] at hf1
      simp at hf1
    | some q =>
      obtain ⟨b, v1⟩ := q
      cases b with
      | some cyc =>
        refine ⟨f1, ?_⟩
        unfold dfsChildren
        rw [hr]
        rfl
      | none =>
        have hsub : visited ⊆ v1 := dfsDetect_visited_mono m f1 c path visited stack _ _ hr
        have hcard2 : ((keysD m).toFinset \ v1).card < k := by
          refine lt_of_le_of_lt (Finset.card_le_card
            (Finset.sdiff_subset_sdiff (Finset.Subset.refl _) hsub)) hcard
        obtain ⟨f2, hf2⟩ := ih v1 hcard2 path stack
        refine ⟨max f1 f2, ?_⟩
        have hr' : dfsDetect m (max f1 f2) c path visited stack = some (none, v1) :=
          dfsDetect_mono_le m f1 (max f1 f2) (le_max_left _ _) _ _ _ _ _ hr
        unfold dfsChildren
        rw [hr']
        show (dfsChildren (dfsDetect m (max f1 f2)) cs path v1 stack).isSome = true
        cases hr2 : dfsChildren (dfsDetect m f2) cs path v1 stack with
        | none =>
          rw [hr2] at hf2
          simp at hf2
        | some r2 =>
          rw [dfsChildren_mono (dfsDetect m f2) (dfsDetect m (max f1 f2))
            (fun u2 p2 v2 s2 r => dfsDetect_mono_le m f2 (max f1 f2) (le_max_right _ _)
              u2 p2 v2 s2 r) cs path v1 stack r2 hr2]
          rfl

theorem dfsDetect_total (m : List (Int × ChakraNode)) (k : Nat) :
    ∀ (visited : Finset Int), ((keysD m).toFinset \ visited).card ≤ k →
    ∀ (u : Int) (path : List Int) (stack : Finset Int),
      ∃ f, (dfsDetect m f u path visited stack).isSome = true := by
  induction k using Nat.strong_induction_on with
  | _ k ihk =>
    intro visited hcard u path stack
    by_cases hs : u ∈ stack
    · exact ⟨1, by simp [dfsDetect, if_pos hs]⟩
    · by_cases hv : u ∈ visited
      · exact ⟨1, by simp [dfsDetect, if_neg hs, if_pos hv]⟩
      · by_cases hu : u ∈ (keysD m).toFinset
        · have hmem : u ∈ (keysD m).toFinset \ visited := Finset.mem_sdiff.mpr ⟨hu, hv⟩
          have hlt : ((keysD m).toFinset \ insert u visited).card <
              ((keysD m).toFinset \ visited).card := by
            apply Finset.card_lt_card
            rw [Finset.ssubset_def]
            constructor
            · exact Finset.sdiff_subset_sdiff (Finset.Subset.refl _)
                (Finset.subset_insert u visited)
            · intro hcon
              have hmem2 := hcon hmem
              rw [Finset.mem_sdiff] at hmem2
              exact hmem2.2 (Finset.mem_insert_self u visited)
          have hk2 : ((keysD m).toFinset \ insert u visited).card < k :=
            lt_of_lt_of_le hlt hcard
          obtain ⟨f, hf⟩ := dfsChildren_total m k
            (fun v2 hv2 u2 p2 s2 => ihk _ hv2 v2 (le_refl _) u2 p2 s2)
            (depsOf m u) (insert u visited) hk2 (path ++ [u]) (insert u stack)
          refine ⟨f + 1, ?_⟩
          unfold dfsDetect
          rw [if_neg hs, if_neg hv]
          exact hf
        · have hdeps : depsOf m u = [] := by
            unfold depsOf
            have hnone : lookupD m u = none := (lookupD_eq_none_iff m u).mpr (by simpa using hu)
            rw [hnone]
          refine ⟨1, ?_⟩
          unfold dfsDetect
          rw [if_neg hs, if_neg hv, hdeps]
          rfl

theorem chain_concat_transGen {R : Int → Int → Prop} :
    ∀ (l : List Int) (x y : Int), List.Chain R x (l ++ [y]) → Relation.TransGen R x y := by
  intro l
  induction l with
  | nil =>
    intro x y h
    rw [List.nil_append, List.chain_cons] at h
    exact Relation.TransGen.single h.1
  | cons z l ih =>
    intro x y h
    rw [List.cons_append, List.chain_cons] at h
    exact Relation.TransGen.head h.1 (ih z y h.2)

theorem cycOk_cycle (m : List (Int × ChakraNode)) (cyc : List Int) (h : cycOk m cyc) :
    ∃ i, Relation.TransGen (dataDepEdge m) i i := by
  obtain ⟨hchain, c, hlast, hmem⟩ := h
  have hne : cyc ≠ [] := by
    intro hcon
    rw [hcon] at hlast
    simp at hlast
  have hsplit : cyc.dropLast ++ [c] = cyc := by
    have h2 : cyc.getLast hne = c := by
      have h3 := List.getLast?_eq_getLast cyc hne
      rw [h3] at hlast
      exact Option.some_inj.mp hlast
    rw [← h2]
    exact List.dropLast_append_getLast hne
  obtain ⟨pre, suf, hps⟩ := List.append_of_mem hmem
  refine ⟨c, ?_⟩
  have hsuffix : List.Chain' (dataDepEdge m) ((c :: suf) ++ [c]) := by
    apply hchain.suffix
    refine ⟨pre, ?_⟩
    rw [← hsplit, hps]
    simp [List.append_assoc]
  have hchain2 : List.Chain (dataDepEdge m) c (suf ++ [c]) := hsuffix
  exact chain_concat_transGen suf c c hchain2

theorem dfsDetect_sound (m : List (Int × ChakraNode)) :
    ∀ (fuel : Nat) (u : Int) (path : List Int) (visited stack : Finset Int)
      (cyc : List Int) (v' : Finset Int),
      stack = path.toFinset →
      List.Chain' (dataDepEdge m) path →
      (∀ h : path ≠ [], dataDepEdge m (path.getLast h) u) →
      dfsDetect m fuel u path visited stack = some (some cyc, v') →
      cycOk m cyc := by
  intro fuel
  induction fuel with
  | zero =>
    intro u path visited stack cyc v' hst hch hedge hrun
    exact absurd hrun (by simp [dfsDetect])
  | succ fuel ih =>
    have inner : ∀ (cs path2 : List Int) (visited2 stack2 : Finset Int)
        (cyc : List Int) (v' : Finset Int),
        stack2 = path2.toFinset →
        List.Chain' (dataDepEdge m) path2 →
        (∀ c ∈ cs, ∀ h : path2 ≠ [], dataDepEdge m (path2.getLast h) c) →
        dfsChildren (dfsDetect m fuel) cs path2 visited2 stack2 = some (some cyc, v') →
        cycOk m cyc := by
      intro cs
      induction cs with
      | nil =>
        intro path2 visited2 stack2 cyc v' hst hch hcs hrun
        exact absurd hrun (by simp [dfsChildren])
      | cons c cs ihc =>
        intro path2 visited2 stack2 cyc v' hst hch hcs hrun
        unfold dfsChildren at hrun
        cases hr : dfsDetect m fuel c path2 visited2 stack2 with
        | none =>
          rw [hr] at hrun
          exact absurd hrun (by simp)
        | some q =>
          rw [hr] at hrun
          obtain ⟨b, v1⟩ := q
          cases b with
          | some cyc0 =>
            simp only [Option.some_inj, Prod.mk.injEq] at hrun
            have hcyc : cyc0 = cyc := hrun.1
            subst hcyc
            exact ih c path2 visited2 stack2 cyc0 v1 hst hch
              (fun h => hcs c (List.mem_cons_self _ _) h) hr
          | none =>
            exact ihc path2 v1 stack2 cyc v' hst hch
              (fun c2 hc2 h => hcs c2 (List.mem_cons_of_mem _ hc2) h) hrun
    intro u path visited stack cyc v' hst hch hedge hrun
    unfold dfsDetect at hrun
    by_cases hs : u ∈ stack
    · rw [if_pos hs] at hrun
      simp only [Option.some_inj, Prod.mk.injEq] at hrun
      have hcyc : path ++ [u] = cyc := hrun.1
      have hpne : path ≠ [] := by
        intro hcon
        rw [hst, hcon] at hs
        simp at hs
      subst hcyc
      refine ⟨?_, u, List.getLast?_concat path, ?_⟩
      · rw [List.chain'_append]
        refine ⟨hch, by simp, ?_⟩
        intro x hx y hy
        simp only [List.head?_cons, Option.mem_def, Option.some_inj] at hy
        subst hy
        have hxl : x = path.getLast hpne := by
          rw [List.getLast?_eq_getLast path hpne] at hx
          exact (Option.some_inj.mp hx).symm
        rw [hxl]
        exact hedge hpne
      · rw [List.dropLast_concat]
        rw [hst] at hs
        exact List.mem_toFinset.mp hs
    · rw [if_neg hs] at hrun
      by_cases hv : u ∈ visited
      · rw [if_pos hv] at hrun
        exact absurd hrun (by simp)
      · rw [if_neg hv] at hrun
        apply inner (depsOf m u) (path ++ [u]) (insert u visited) (insert u stack) cyc v'
          ?_ ?_ ?_ hrun
        · rw [hst, List.toFinset_append]
          rw [Finset.union_comm]
          ext x
          simp [Or.comm]
        · rw [List.chain'_append]
          refine ⟨hch, by simp, ?_⟩
          intro x hx y hy
          simp only [List.head?_cons, Option.mem_def, Option.some_inj] at hy
          subst hy
          have hpne : path ≠ [] := by
            intro hcon
            rw [hcon] at hx
            simp at hx
          have hxl : x = path.getLast hpne := by
            rw [List.getLast?_eq_getLast path hpne] at hx
            exact (Option.some_inj.mp hx).symm
          rw [hxl]
          exact hedge hpne
        · intro c hc h2
          have hgl : (path ++ [u]).getLast h2 = u := List.getLast_concat path
          rw [hgl]
          unfold depsOf at hc
          cases hl : lookupD m u with
          | none =>
            rw [hl] at hc
            simp at hc
          | some n =>
            rw [hl] at hc
            exact ⟨n, hl, hc⟩

theorem dfsDetect_complete (m : List (Int × ChakraNode)) :
    ∀ (fuel : Nat) (u : Int) (path : List Int) (visited stack v' : Finset Int),
      dfsPre m visited stack →
      dfsDetect m fuel u path visited stack = some (none, v') →
      visited ⊆ v' ∧ dfsPre m v' stack ∧
      (∀ y, Relation.ReflTransGen (dataDepEdge m) u y →
        y ∈ v' ∧ y ∉ stack ∧ ¬Relation.TransGen (dataDepEdge m) y y) := by
  intro fuel
  induction fuel with
  | zero =>
    intro u path visited stack v' hpre hrun
    exact absurd hrun (by simp [dfsDetect])
  | succ fuel ih =>
    have inner : ∀ (cs path2 : List Int) (visited2 stack2 v' : Finset Int),
        dfsPre m visited2 stack2 →
        dfsChildren (dfsDetect m fuel) cs path2 visited2 stack2 = some (none, v') →
        visited2 ⊆ v' ∧ dfsPre m v' stack2 ∧
        (∀ c ∈ cs, ∀ y, Relation.ReflTransGen (dataDepEdge m) c y →
          y ∈ v' ∧ y ∉ stack2 ∧ ¬Relation.TransGen (dataDepEdge m) y y) := by
      intro cs
      induction cs with
      | nil =>
        intro path2 visited2 stack2 v' hpre hrun
        simp only [dfsChildren, Option.some_inj, Prod.mk.injEq] at hrun
        obtain ⟨-, h2⟩ := hrun
        subst h2
        exact ⟨Finset.Subset.refl _, hpre, by intro c hc; simp at hc⟩
      | cons c cs ihc =>
        intro path2 visited2 stack2 v' hpre hrun
        unfold dfsChildren at hrun
        cases hr : dfsDetect m fuel c path2 visited2 stack2 with
        | none =>
          rw [hr] at hrun
          exact absurd hrun (by simp)
        | some q =>
          rw [hr] at hrun
          obtain ⟨b, v1⟩ := q
          cases b with
          | some cyc =>
            exact absurd hrun (by simp)
          | none =>
            obtain ⟨hsub1, hpre1, hc1⟩ := ih c path2 visited2 stack2 v1 hpre hr
            obtain ⟨hsub2, hpre2, hcs2⟩ := ihc path2 v1 stack2 v' hpre1 hrun
            refine ⟨hsub1.trans hsub2, hpre2, ?_⟩
            intro c2 hc2 y hy
            rcases List.mem_cons.mp hc2 with h | h
            · subst h
              obtain ⟨hy1, hy2, hy3⟩ := hc1 y hy
              exact ⟨hsub2 hy1, hy2, hy3⟩
            · exact hcs2 c2 h y hy
    intro u path visited stack v' hpre hrun
    unfold dfsDetect at hrun
    by_cases hs : u ∈ stack
    · rw [if_pos hs] at hrun
      exact absurd hrun (by simp)
    · rw [if_neg hs] at hrun
      by_cases hv : u ∈ visited
      · rw [if_pos hv] at hrun
        simp only [Option.some_inj, Prod.mk.injEq] at hrun
        obtain ⟨-, h2⟩ := hrun
        subst h2
        exact ⟨Finset.Subset.refl _, hpre, fun y hy => hpre u hv hs y hy⟩
      · rw [if_neg hv] at hrun
        have hpre' : dfsPre m (insert u visited) (insert u stack) := by
          intro x hx hxs
          have hxu : x ≠ u := fun hcon => hxs (hcon ▸ Finset.mem_insert_self u stack)
          have hx2 : x ∈ visited := by
            rcases Finset.mem_insert.mp hx with h | h
            · exact absurd h hxu
            · exact h
          have hxs2 : x ∉ stack := fun hcon => hxs (Finset.mem_insert_of_mem hcon)
          intro y hy
          obtain ⟨hy1, hy2, hy3⟩ := hpre x hx2 hxs2 y hy
          refine ⟨Finset.mem_insert_of_mem hy1, ?_, hy3⟩
          intro hcon
          rcases Finset.mem_insert.mp hcon with h | h
          · exact hv (h ▸ hy1)
          · exact hy2 h
        obtain ⟨hsub, hpre2, hcs⟩ := inner (depsOf m u) (path ++ [u])
          (insert u visited) (insert u stack) v' hpre' hrun
        have hedge_mem : ∀ c, dataDepEdge m u c → c ∈ depsOf m u := by
          intro c hc
          obtain ⟨n, hn, hcn⟩ := hc
          unfold depsOf
          rw [hn]
          exact hcn
        have hu_v' : u ∈ v' := hsub (Finset.mem_insert_self u visited)
        have hu_safe : ∀ y, Relation.ReflTransGen (dataDepEdge m) u y →
            y ∈ v' ∧ y ∉ stack ∧ ¬Relation.TransGen (dataDepEdge m) y y := by
          intro y hy
          rcases Relation.ReflTransGen.cases_head hy with h | ⟨c, hc1, hc2⟩
          · subst h
            refine ⟨hu_v', hs, ?_⟩
            intro hcyc
            obtain ⟨c, hc1, hc2⟩ := Relation.TransGen.head'_iff.mp hcyc
            obtain ⟨h1, h2, h3⟩ := hcs c (hedge_mem c hc1) u hc2
            exact h2 (Finset.mem_insert_self u stack)
          · obtain ⟨h1, h2, h3⟩ := hcs c (hedge_mem c hc1) y hc2
            exact ⟨h1, fun hcon => h2 (Finset.mem_insert_of_mem hcon), h3⟩
        refine ⟨(Finset.subset_insert u visited).trans hsub, ?_, hu_safe⟩
        intro x hx hxs
        by_cases hxu : x = u
        · subst hxu
          exact fun y hy => hu_safe y hy
        · have hxs2 : x ∉ insert u stack := by
            intro hcon
            rcases Finset.mem_insert.mp hcon with h | h
            exacts [hxu h, hxs h]
          intro y hy
          obtain ⟨hy1, hy2, hy3⟩ := hpre2 x hx hxs2 y hy
          exact ⟨hy1, fun hcon => hy2 (Finset.mem_insert_of_mem hcon), hy3⟩

theorem identifyCyclesLoop_mono (m : List (Int × ChakraNode)) (f f' : Nat) (hle : f ≤ f') :
    ∀ (ids : List Int) (visited : Finset Int) r,
      identifyCyclesLoop m f ids visited = some r →
      identifyCyclesLoop m f' ids visited = some r := by
  intro ids
  induction ids with
  | nil =>
    intro v r h
    exact h
  | cons i rest ih =>
    intro v r h
    unfold identifyCyclesLoop at h ⊢
    cases hr : dfsDetect m f i [] v ∅ with
    | none =>
      rw [hr] at h
      exact absurd h (by simp)
    | some q =>
      rw [hr] at h
      rw [dfsDetect_mono_le m f f' hle _ _ _ _ _ hr]
      obtain ⟨b, v1⟩ := q
      cases b with
      | some cyc => exact h
      | none => exact ih v1 r h

theorem identifyCyclesLoop_total (m : List (Int × ChakraNode)) :
    ∀ (ids : List Int) (visited : Finset Int),
      ∃ f, (identifyCyclesLoop m f ids visited).isSome = true := by
  intro ids
  induction ids with
  | nil => exact fun v => ⟨0, rfl⟩
  | cons i rest ih =>
    intro v
    obtain ⟨f1, hf1⟩ := dfsDetect_total m (((keysD m).toFinset \ v).card) v (le_refl _) i [] ∅
    cases hr : dfsDetect m f1 i [] v ∅ with
    | none =>
      rw [hr] at hf1
      simp at hf1
    | some q =>
      obtain ⟨b, v1⟩ := q
      cases b with
      | some cyc =>
        refine ⟨f1, ?_⟩
        unfold identifyCyclesLoop
        rw [hr]
        rfl
      | none =>
        obtain ⟨f2, hf2⟩ := ih v1
        cases hr2 : identifyCyclesLoop m f2 rest v1 with
        | none =>
          rw [hr2] at hf2
          simp at hf2
        | some r2 =>
          refine ⟨max f1 f2, ?_⟩
          unfold identifyCyclesLoop
          rw [dfsDetect_mono_le m f1 _ (le_max_left _ _) _ _ _ _ _ hr]
          show (identifyCyclesLoop m (max f1 f2) rest v1).isSome = true
          rw [identifyCyclesLoop_mono m f2 _ (le_max_right _ _) rest v1 r2 hr2]
          rfl

theorem identifyCyclesLoop_none_spec (m : List (Int × ChakraNode)) (fuel : Nat) :
    ∀ (ids : List Int) (visited : Finset Int),
      dfsPre m visited ∅ →
      identifyCyclesLoop m fuel ids visited = some none →
      ∀ i ∈ ids, ∀ y, Relation.ReflTransGen (dataDepEdge m) i y →
        ¬Relation.TransGen (dataDepEdge m) y y := by
  intro ids
  induction ids with
  | nil =>
    intro v hpre h i hi
    simp at hi
  | cons i rest ih =>
    intro v hpre hrun j hj
    unfold identifyCyclesLoop at hrun
    cases hr : dfsDetect m fuel i [] v ∅ with
    | none =>
      rw [hr] at hrun
      exact absurd hrun (by simp)
    | some q =>
      rw [hr] at hrun
      obtain ⟨b, v1⟩ := q
      cases b with
      | some cyc => exact absurd hrun (by simp)
      | none =>
        obtain ⟨hsub, hpre1, hsafe⟩ := dfsDetect_complete m fuel i [] v ∅ v1 hpre hr
        rcases List.mem_cons.mp hj with h1 | h1
        · subst h1
          intro y hy
          exact (hsafe y hy).2.2
        · exact ih v1 hpre1 hrun j h1

theorem identifyCyclesLoop_some_spec (m : List (Int × ChakraNode)) (fuel : Nat) :
    ∀ (ids : List Int) (visited : Finset Int) (cyc : List Int),
      identifyCyclesLoop m fuel ids visited = some (some cyc) → cycOk m cyc := by
  intro ids
  induction ids with
  | nil =>
    intro v cyc h
    simp [identifyCyclesLoop] at h
  | cons i rest ih =>
    intro v cyc h
    unfold identifyCyclesLoop at h
    cases hr : dfsDetect m fuel i [] v ∅ with
    | none =>
      rw [hr] at h
      exact absurd h (by simp)
    | some q =>
      rw [hr] at h
      obtain ⟨b, v1⟩ := q
      cases b with
      | some cyc0 =>
        simp only [Option.some_inj] at h
        subst h
        exact dfsDetect_sound m fuel i [] v ∅ cyc0 v1 rfl trivial
          (fun hcon => absurd rfl hcon) hr
      | none => exact ih v1 cyc h

/-- C3: the cycle check over the output collection can always be run to
completion; it reports a fatal error exactly when some node's data_deps
closure contains the node itself; and the reported message is the node
names of the reported path joined in traversal order, where consecutive
reported nodes are data_deps edges and the final node repeats an earlier
one, closing the cycle.  The check computes no new node collection, so on
a cycle-free graph no node is modified. -/
theorem C3_cycle_detection (m : List (Int × ChakraNode))
    (hclosed : ∀ e ∈ m, ∀ j ∈ e.2.data_deps, j ∈ keysD m) :
    (∃ fuel r, identify_cyclic_dependencies m fuel = some r) ∧
    (∀ fuel r, identify_cyclic_dependencies m fuel = some r →
      ((∃ i, Relation.TransGen (dataDepEdge m) i i) ↔ ∃ e, r = Except.error e)) ∧
    (∀ fuel msg cyc,
      identify_cyclic_dependencies m fuel = some (Except.error (msg, cyc)) →
      msg = cycleMsg m cyc ∧ List.Chain' (dataDepEdge m) cyc ∧
      ∃ c, cyc.getLast? = some c ∧ c ∈ cyc.dropLast) := by
  refine ⟨?_, ?_, ?_⟩
  · obtain ⟨f, hf⟩ := identifyCyclesLoop_total m (keysD m) ∅
    cases hr : identifyCyclesLoop m f (keysD m) ∅ with
    | none =>
      rw [hr] at hf
      simp at hf
    | some q =>
      cases q with
      | none =>
        refine ⟨f, Except.ok (), ?_⟩
        unfold identify_cyclic_dependencies
        rw [hr]
      | some cyc =>
        refine ⟨f, Except.error (cycleMsg m cyc, cyc), ?_⟩
        unfold identify_cyclic_dependencies
        rw [hr]
  · intro fuel r hr
    unfold identify_cyclic_dependencies at hr
    cases hloop : identifyCyclesLoop m fuel (keysD m) ∅ with
    | none =>
      rw [hloop] at hr
      exact absurd hr (by simp)
    | some q =>
      rw [hloop] at hr
      cases q with
      | none =>
        simp only [Option.some_inj] at hr
        subst hr
        constructor
        · rintro ⟨i, hcyc⟩
          exfalso
          obtain ⟨c, hc1, hc2⟩ := Relation.TransGen.head'_iff.mp hcyc
          obtain ⟨n, hn, -⟩ := hc1
          have hikey : i ∈ keysD m := by
            rw [← lookupD_isSome_iff, hn]
            rfl
          have hnone := identifyCyclesLoop_none_spec m fuel (keysD m) ∅
            (by intro x hx; simp at hx) hloop i hikey
          exact hnone i Relation.ReflTransGen.refl hcyc
        · rintro ⟨e, he⟩
          exact absurd he (by simp)
      | some cyc =>
        simp only [Option.some_inj] at hr
        subst hr
        constructor
        · intro h
          exact ⟨(cycleMsg m cyc, cyc), rfl⟩
        · intro h
          exact cycOk_cycle m cyc (identifyCyclesLoop_some_spec m fuel (keysD m) ∅ cyc hloop)
  · intro fuel msg cyc hr
    unfold identify_cyclic_dependencies at hr
    cases hloop : identifyCyclesLoop m fuel (keysD m) ∅ with
    | none =>
      rw [hloop] at hr
      exact absurd hr (by simp)
    | some q =>
      rw [hloop] at hr
      cases q with
      | none => exact absurd hr (by simp)
      | some cyc0 =>
        simp only [Option.some_inj, Except.error.injEq, Prod.mk.injEq] at hr
        obtain ⟨hmsg, hcyc⟩ := hr
        subst hcyc
        obtain ⟨hchain, c, hlast, hmem⟩ :=
          identifyCyclesLoop_some_spec m fuel (keysD m) ∅ cyc0 hloop
        exact ⟨hmsg.symm ▸ rfl, hchain, c, hlast, hmem⟩

/-- Witness for C3 at a concrete input: the reference-closed three-node
cycle 1 -> 2 -> 3 -> 1 satisfies the hypothesis, and the check can be run
on it. -/
theorem C3_witness :
    (∀ e ∈ [((1 : Int), mkNode 1 [2]), (2, mkNode 2 [3]), (3, mkNode 3 [1])],
      ∀ j ∈ e.2.data_deps,
        j ∈ keysD [((1 : Int), mkNode 1 [2]), (2, mkNode 2 [3]), (3, mkNode 3 [1])]) ∧
    (∃ fuel r, identify_cyclic_dependencies
      [((1 : Int), mkNode 1 [2]), (2, mkNode 2 [3]), (3, mkNode 3 [1])] fuel = some r) := by
  refine ⟨by decide, ?_⟩
  exact (C3_cycle_detection
    [((1 : Int), mkNode 1 [2]), (2, mkNode 2 [3]), (3, mkNode 3 [1])] (by decide)).1

end Chakra
